import Mathlib

set_option maxHeartbeats 1000000

/-! Shallow embedding of the WatchNexus watch-party service
    (wn-potluck, file manager.py). Python dicts become insertion-ordered
    association lists, float playback positions become rationals,
    websocket handles become opaque Nat ids, and uuid/timestamp
    generation becomes oracle inputs supplied to each operation.
    Every attempted message delivery is recorded as a SendRec together
    with whether the transport succeeded; the fail set models closed
    sockets, whose exceptions send_to_member swallows. -/

/-- Member of a watch party (dataclass PartyMember). The websocket field is
    an opaque connection id. -/
structure PartyMember where
  user_id : String
  username : String
  ws : Nat
  is_host : Bool
  joined_at : String
  is_ready : Bool
  current_time : Rat
  deriving DecidableEq

/-- Chat message in a watch party (dataclass ChatMessage). -/
structure ChatMessage where
  id : String
  user_id : String
  username : String
  message : String
  timestamp : String
  message_type : String
  deriving DecidableEq

/-- Watch-party session (dataclass Potluck). The members dict is an
    insertion-ordered list keyed by user_id. -/
structure Potluck where
  party_id : String
  host_id : String
  media_id : String
  media_title : String
  media_type : String
  created_at : String
  is_playing : Bool
  current_time : Rat
  playback_rate : Rat
  members : List PartyMember
  chat_history : List ChatMessage
  max_chat_history : Nat
  require_ready : Bool
  sync_threshold : Rat
  deriving DecidableEq

/-- Registry state (class PotluckManager): party code to session, and the
    reverse participant to party-code index. Both are insertion-ordered
    association lists modelling Python dicts. -/
structure PotluckManager where
  parties : List (String × Potluck)
  user_party_map : List (String × String)
  deriving DecidableEq

/-- Python dict lookup d.get(k): first entry with the key. -/
def dictGet? {α : Type} (l : List (String × α)) (k : String) : Option α :=
  match l with
  | [] => none
  | (k0, v0) :: rest => if k0 = k then some v0 else dictGet? rest k

/-- Python dict assignment d[k] = v: replace in place, else append. -/
def dictSet {α : Type} (l : List (String × α)) (k : String) (v : α) :
    List (String × α) :=
  match l with
  | [] => [(k, v)]
  | (k0, v0) :: rest =>
    if k0 = k then (k0, v) :: rest else (k0, v0) :: dictSet rest k v

/-- Python dict deletion del d[k]: drop the entry with the key. -/
def dictDel {α : Type} (l : List (String × α)) (k : String) :
    List (String × α) :=
  match l with
  | [] => []
  | (k0, v0) :: rest => if k0 = k then rest else (k0, v0) :: dictDel rest k

/-- Roster lookup members.get(user_id). -/
def memGet? (ms : List PartyMember) (u : String) : Option PartyMember :=
  match ms with
  | [] => none
  | m :: rest => if m.user_id = u then some m else memGet? rest u

/-- Roster assignment members[m.user_id] = m: replace in place, else append. -/
def memSet (ms : List PartyMember) (m : PartyMember) : List PartyMember :=
  match ms with
  | [] => [m]
  | m0 :: rest =>
    if m0.user_id = m.user_id then m :: rest else m0 :: memSet rest m

/-- Roster removal members.pop(user_id, None), the remaining list. -/
def memDel (ms : List PartyMember) (u : String) : List PartyMember :=
  match ms with
  | [] => []
  | m :: rest => if m.user_id = u then rest else m :: memDel rest u

/-- Potluck.add_member. -/
def Potluck.add_member (p : Potluck) (member : PartyMember) : Potluck :=
  { p with members := memSet p.members member }

/-- Potluck.remove_member: the popped member (if any) and the updated party. -/
def Potluck.remove_member (p : Potluck) (user_id : String) :
    Option PartyMember × Potluck :=
  (memGet? p.members user_id, { p with members := memDel p.members user_id })

/-- Potluck.get_member_count. -/
def Potluck.get_member_count (p : Potluck) : Nat :=
  p.members.length

/-- Potluck.add_chat_message: append, then keep the last max_chat_history
    entries when over the cap. -/
def Potluck.add_chat_message (p : Potluck) (message : ChatMessage) : Potluck :=
  let h := p.chat_history ++ [message]
  if h.length > p.max_chat_history then
    { p with chat_history := h.drop (h.length - p.max_chat_history) }
  else
    { p with chat_history := h }

/-- Member summary inside Potluck.to_dict. -/
structure MemberDict where
  user_id : String
  username : String
  is_host : Bool
  is_ready : Bool
  deriving DecidableEq

/-- Serialized party state produced by Potluck.to_dict. -/
structure PartyDict where
  party_id : String
  host_id : String
  media_id : String
  media_title : String
  media_type : String
  created_at : String
  is_playing : Bool
  current_time : Rat
  playback_rate : Rat
  member_count : Nat
  members : List MemberDict
  require_ready : Bool
  deriving DecidableEq

/-- Potluck.to_dict. -/
def Potluck.to_dict (p : Potluck) : PartyDict :=
  { party_id := p.party_id
    host_id := p.host_id
    media_id := p.media_id
    media_title := p.media_title
    media_type := p.media_type
    created_at := p.created_at
    is_playing := p.is_playing
    current_time := p.current_time
    playback_rate := p.playback_rate
    member_count := p.get_member_count
    members := p.members.map (fun m =>
      { user_id := m.user_id
        username := m.username
        is_host := m.is_host
        is_ready := m.is_ready })
    require_ready := p.require_ready }

/-- Outbound message payloads produced by the manager. A sync directive in
    the source carries the resync key only when true; absence is modelled
    as resync = false. -/
inductive OutMsg where
  | sync (is_playing : Bool) (current_time playback_rate : Rat) (resync : Bool)
  | chat (message : ChatMessage)
  | reaction (user_id username emoji : String)
  | party_update (party : PartyDict)
  deriving DecidableEq

/-- Record of one attempted websocket delivery: the target member identity,
    its connection id, the payload, and whether the transport succeeded. -/
structure SendRec where
  target_user : String
  target_ws : Nat
  msg : OutMsg
  delivered : Bool
  deriving DecidableEq

/-- Transport send (websocket.send_json): raises on a failed connection,
    modelled by the fail set over connection ids. -/
def websocket_send_json (fails : Nat → Bool) (ws : Nat) :
    Except String Unit :=
  if fails ws then Except.error "connection closed" else Except.ok ()

/-- PotluckManager._send_to_member: try the transport send and swallow any
    failure (it is only logged). Always returns the attempted record. -/
def send_to_member (fails : Nat → Bool) (member : PartyMember)
    (msg : OutMsg) : List SendRec :=
  match websocket_send_json fails member.ws with
  | Except.ok _ =>
    [{ target_user := member.user_id, target_ws := member.ws,
       msg := msg, delivered := true }]
  | Except.error _ =>
    [{ target_user := member.user_id, target_ws := member.ws,
       msg := msg, delivered := false }]

/-- The Python guard `if exclude and member.user_id == exclude`: None and
    the empty string are falsy, so they exclude nobody. -/
def excludeHit (exclude : Option String) (u : String) : Bool :=
  match exclude with
  | none => false
  | some e => decide (e ≠ "") && decide (u = e)

/-- PotluckManager._broadcast: deliver to every roster member except the
    excluded sender, each send in its own failure boundary. -/
def broadcast (fails : Nat → Bool) (party : Potluck) (msg : OutMsg)
    (exclude : Option String) : List SendRec :=
  party.members.flatMap (fun member =>
    if excludeHit exclude member.user_id then []
    else send_to_member fails member msg)

/-- PotluckManager._broadcast_party_update. -/
def broadcast_party_update (fails : Nat → Bool) (party : Potluck) :
    List SendRec :=
  broadcast fails party (OutMsg.party_update party.to_dict) none

/-- Oracle inputs standing for uuid4() and datetime.now() calls, plus the
    stream of byte blocks drawn for party-code generation. -/
structure Oracle where
  now : String
  chatId : String
  sysId1 : String
  sysId2 : String
  codeBytes : List (List Nat)

/-- PotluckManager._send_system_message: build the system ChatMessage,
    append it to the history, broadcast it. -/
def send_system_message (fails : Nat → Bool) (msgId now : String)
    (party : Potluck) (text : String) : Potluck × List SendRec :=
  let msg : ChatMessage :=
    { id := msgId, user_id := "system", username := "System",
      message := text, timestamp := now, message_type := "system" }
  let party := party.add_chat_message msg
  (party, broadcast fails party (OutMsg.chat msg) none)

/-- Python str.upper over the code string (ASCII uppercase per char). -/
def pyUpper (s : String) : String :=
  String.mk (s.toList.map Char.toUpper)

/-- The party-code alphabet (no confusing chars). -/
def party_code_chars : List Char :=
  "ABCDEFGHJKLMNPQRSTUVWXYZ23456789".toList

/-- PotluckManager.generate_party_code applied to one drawn byte block
    (uuid4().bytes[:6], each byte reduced mod the alphabet size). -/
def generate_party_code (bytes : List Nat) : String :=
  String.mk ((bytes.take 6).map
    (fun b => party_code_chars.getD (b % party_code_chars.length) 'A'))

/-- The generate-then-regenerate-while-colliding loop of create_party:
    first generated code not already registered. None models the
    (probability-zero) case that the oracle stream never yields a fresh
    code. -/
def pickCode (parties : List (String × Potluck)) (codeBytes : List (List Nat)) :
    Option String :=
  (codeBytes.map generate_party_code).find?
    (fun c => (dictGet? parties c).isNone)

/-- PotluckManager.leave_party. Returns the new registry state, the
    attempted sends in order, and the Python boolean result. -/
def leave_party (fails : Nat → Bool) (o : Oracle) (st : PotluckManager)
    (user_id : String) : PotluckManager × List SendRec × Bool :=
  match dictGet? st.user_party_map user_id with
  | none => (st, [], false)
  | some party_id =>
    match dictGet? st.parties party_id with
    | none =>
      ({ st with user_party_map := dictDel st.user_party_map user_id },
       [], false)
    | some party =>
      let popped := party.remove_member user_id
      let party := popped.2
      let st := { st with user_party_map := dictDel st.user_party_map user_id }
      let step1 : Potluck × List SendRec :=
        match popped.1 with
        | some member =>
          send_system_message fails o.sysId1 o.now party
            (member.username ++ " left the party")
        | none => (party, [])
      let party := step1.1
      let out1 := step1.2
      if party.host_id = user_id then
        match party.members with
        | [] =>
          ({ st with parties := dictDel st.parties party_id }, out1, true)
        | first :: rest =>
          let new_host := { first with is_host := true }
          let party := { party with members := new_host :: rest,
                                    host_id := new_host.user_id }
          let step2 := send_system_message fails o.sysId2 o.now party
            (new_host.username ++ " is now the host")
          let party := step2.1
          let st := { st with parties := dictSet st.parties party_id party }
          (st, out1 ++ step2.2 ++ broadcast_party_update fails party, true)
      else
        let st := { st with parties := dictSet st.parties party_id party }
        (st, out1 ++ broadcast_party_update fails party, true)

/-- PotluckManager.create_party. None models an oracle stream that never
    produces a fresh code (the while loop would not terminate). -/
def create_party (fails : Nat → Bool) (o : Oracle) (st : PotluckManager)
    (host_id host_username media_id media_title media_type : String)
    (ws : Nat) : Option (PotluckManager × List SendRec × Potluck) :=
  let step0 : PotluckManager × List SendRec :=
    if (dictGet? st.user_party_map host_id).isSome then
      let l := leave_party fails o st host_id
      (l.1, l.2.1)
    else (st, [])
  let st := step0.1
  match pickCode st.parties o.codeBytes with
  | none => none
  | some party_id =>
    let party : Potluck :=
      { party_id := party_id
        host_id := host_id
        media_id := media_id
        media_title := media_title
        media_type := media_type
        created_at := o.now
        is_playing := false
        current_time := 0
        playback_rate := 1
        members := []
        chat_history := []
        max_chat_history := 100
        require_ready := true
        sync_threshold := 2 }
    let host_member : PartyMember :=
      { user_id := host_id, username := host_username, ws := ws,
        is_host := true, joined_at := o.now, is_ready := true,
        current_time := 0 }
    let party := party.add_member host_member
    let st := { st with
      parties := dictSet st.parties party_id party,
      user_party_map := dictSet st.user_party_map host_id party_id }
    let step1 := send_system_message fails o.sysId1 o.now party
      (host_username ++ " created the watch party")
    let party := step1.1
    let st := { st with parties := dictSet st.parties party_id party }
    some (st, step0.2 ++ step1.2, party)

/-- Result of join_party: the Optional return of the source, plus the
    uncaught KeyError raised by `self.parties[party_id]` when the implicit
    leave has just destroyed the target party. -/
inductive JoinOutcome where
  | notFound
  | joined (party : Potluck)
  | keyError
  deriving DecidableEq

/-- PotluckManager.join_party. The state component is the registry at
    return, or at the raise point for the keyError outcome. -/
def join_party (fails : Nat → Bool) (o : Oracle) (st : PotluckManager)
    (party_id0 user_id username : String) (ws : Nat) :
    PotluckManager × List SendRec × JoinOutcome :=
  let party_id := pyUpper party_id0
  match dictGet? st.parties party_id with
  | none => (st, [], JoinOutcome.notFound)
  | some _ =>
    let step0 : PotluckManager × List SendRec :=
      if (dictGet? st.user_party_map user_id).isSome then
        let l := leave_party fails o st user_id
        (l.1, l.2.1)
      else (st, [])
    let st := step0.1
    match dictGet? st.parties party_id with
    | none => (st, step0.2, JoinOutcome.keyError)
    | some party =>
      let member : PartyMember :=
        { user_id := user_id, username := username, ws := ws,
          is_host := false, joined_at := o.now, is_ready := false,
          current_time := 0 }
      let party := party.add_member member
      let st := { st with
        parties := dictSet st.parties party_id party,
        user_party_map := dictSet st.user_party_map user_id party_id }
      let out1 := broadcast_party_update fails party
      let step2 := send_system_message fails o.sysId1 o.now party
        (username ++ " joined the party")
      let party := step2.1
      let st := { st with parties := dictSet st.parties party_id party }
      let out3 := send_to_member fails member
        (OutMsg.sync party.is_playing party.current_time party.playback_rate
          false)
      let out4 := (party.chat_history.drop (party.chat_history.length - 20)).flatMap
        (fun m => send_to_member fails member (OutMsg.chat m))
      (st, step0.2 ++ out1 ++ step2.2 ++ out3 ++ out4,
       JoinOutcome.joined party)

/-- Inbound websocket message: each optional field models presence or
    absence of that key in the JSON payload. -/
structure InMessage where
  type : Option String
  message : Option String
  emoji : Option String
  ready : Option Bool
  time : Option Rat
  deriving DecidableEq

/-- PotluckManager.handle_message: dispatch one inbound event. -/
def handle_message (fails : Nat → Bool) (o : Oracle) (st : PotluckManager)
    (user_id : String) (msg : InMessage) : PotluckManager × List SendRec :=
  match dictGet? st.user_party_map user_id with
  | none => (st, [])
  | some party_id =>
    match dictGet? st.parties party_id with
    | none => (st, [])
    | some party =>
      match memGet? party.members user_id with
      | none => (st, [])
      | some member =>
        let msg_type := msg.type
        if msg_type = some "chat" then
          let chat_msg : ChatMessage :=
            { id := o.chatId, user_id := user_id,
              username := member.username,
              message := (msg.message.getD "").take 500,
              timestamp := o.now, message_type := "chat" }
          let party := party.add_chat_message chat_msg
          ({ st with parties := dictSet st.parties party_id party },
           broadcast fails party (OutMsg.chat chat_msg) none)
        else if msg_type = some "reaction" then
          (st, broadcast fails party
            (OutMsg.reaction user_id member.username (msg.emoji.getD "👍"))
            none)
        else if msg_type = some "ready" then
          let member := { member with is_ready := msg.ready.getD true }
          let party := { party with members := memSet party.members member }
          ({ st with parties := dictSet st.parties party_id party },
           broadcast_party_update fails party)
        else if msg_type = some "seek" ∧ member.is_host = true then
          let party := { party with current_time := msg.time.getD 0 }
          ({ st with parties := dictSet st.parties party_id party },
           broadcast fails party
             (OutMsg.sync party.is_playing party.current_time
               party.playback_rate false)
             (some user_id))
        else if msg_type = some "play" ∧ member.is_host = true then
          let party :=
            { party with is_playing := true, current_time := msg.time.getD party.current_time }
          ({ st with parties := dictSet st.parties party_id party },
           broadcast fails party
             (OutMsg.sync true party.current_time party.playback_rate false)
             none)
        else if msg_type = some "pause" ∧ member.is_host = true then
          let party :=
            { party with is_playing := false, current_time := msg.time.getD party.current_time }
          ({ st with parties := dictSet st.parties party_id party },
           broadcast fails party
             (OutMsg.sync false party.current_time party.playback_rate false)
             none)
        else if msg_type = some "time_update" then
          let member := { member with current_time := msg.time.getD 0 }
          let party := { party with members := memSet party.members member }
          let out :=
            if party.is_playing = true ∧
                party.sync_threshold <
                  abs (member.current_time - party.current_time) then
              send_to_member fails member
                (OutMsg.sync party.is_playing party.current_time
                  party.playback_rate true)
            else []
          ({ st with parties := dictSet st.parties party_id party }, out)
        else
          (st, [])

/-- PotluckManager.get_party. -/
def get_party (st : PotluckManager) (party_id : String) : Option Potluck :=
  dictGet? st.parties (pyUpper party_id)

/-- PotluckManager.get_user_party. -/
def get_user_party (st : PotluckManager) (user_id : String) : Option Potluck :=
  match dictGet? st.user_party_map user_id with
  | none => none
  | some party_id => dictGet? st.parties party_id

/-- The registry state of a freshly constructed PotluckManager. -/
def PotluckManager.empty : PotluckManager :=
  { parties := [], user_party_map := [] }

/-- One registry operation, with arbitrary oracle inputs and transport
    fail set. -/
inductive Step : PotluckManager → PotluckManager → Prop where
  | create (fails : Nat → Bool) (o : Oracle) (st : PotluckManager)
      (host_id host_username media_id media_title media_type : String)
      (ws : Nat) (r : PotluckManager × List SendRec × Potluck)
      (h : create_party fails o st host_id host_username media_id media_title
        media_type ws = some r) :
      Step st r.1
  | join (fails : Nat → Bool) (o : Oracle) (st : PotluckManager)
      (code user_id username : String) (ws : Nat) :
      Step st (join_party fails o st code user_id username ws).1
  | leave (fails : Nat → Bool) (o : Oracle) (st : PotluckManager)
      (user_id : String) :
      Step st (leave_party fails o st user_id).1
  | message (fails : Nat → Bool) (o : Oracle) (st : PotluckManager)
      (user_id : String) (msg : InMessage) :
      Step st (handle_message fails o st user_id msg).1

/-- Registry states reachable from a fresh manager by any sequence of
    operations. -/
inductive Reach : PotluckManager → Prop where
  | init : Reach PotluckManager.empty
  | step {st st' : PotluckManager} : Reach st → Step st st' → Reach st'

/-- All time fields carried by the message are nonnegative (the transport
    layer would have to validate this; the source does not). -/
def InMessage.timeNonneg (msg : InMessage) : Prop :=
  ∀ t, msg.time = some t → 0 ≤ t

/-- Operations whose inbound events carry only nonnegative time payloads. -/
inductive StepNN : PotluckManager → PotluckManager → Prop where
  | create (fails : Nat → Bool) (o : Oracle) (st : PotluckManager)
      (host_id host_username media_id media_title media_type : String)
      (ws : Nat) (r : PotluckManager × List SendRec × Potluck)
      (h : create_party fails o st host_id host_username media_id media_title
        media_type ws = some r) :
      StepNN st r.1
  | join (fails : Nat → Bool) (o : Oracle) (st : PotluckManager)
      (code user_id username : String) (ws : Nat) :
      StepNN st (join_party fails o st code user_id username ws).1
  | leave (fails : Nat → Bool) (o : Oracle) (st : PotluckManager)
      (user_id : String) :
      StepNN st (leave_party fails o st user_id).1
  | message (fails : Nat → Bool) (o : Oracle) (st : PotluckManager)
      (user_id : String) (msg : InMessage) (hnn : msg.timeNonneg) :
      StepNN st (handle_message fails o st user_id msg).1

/-- Reachability when every inbound event carries only nonnegative time
    payloads. -/
inductive ReachNN : PotluckManager → Prop where
  | init : ReachNN PotluckManager.empty
  | step {st st' : PotluckManager} : ReachNN st → StepNN st st' → ReachNN st'

/-- Every registered session has nonnegative playback position. -/
def PosInv (st : PotluckManager) : Prop :=
  ∀ c p, dictGet? st.parties c = some p → 0 ≤ p.current_time

/-- Well-formedness of one registered session under its registry key:
    non-empty roster with distinct member ids, the host_id field names a
    roster member flagged as host, every other member is not flagged, and
    the key is uppercase-normal. -/
structure PartyWF (c : String) (p : Potluck) : Prop where
  nonempty : p.members ≠ []
  nodupKeys : (p.members.map PartyMember.user_id).Nodup
  host_mem : ∃ m, memGet? p.members p.host_id = some m ∧ m.is_host = true
  host_unique : ∀ m ∈ p.members, m.is_host = true → m.user_id = p.host_id
  upperCode : pyUpper c = c

/-- The registry invariant: unique keys in both indices, well-formed
    sessions, and agreement between the participant index and the rosters. -/
structure RegInv (st : PotluckManager) : Prop where
  partiesNodup : (st.parties.map Prod.fst).Nodup
  mapNodup : (st.user_party_map.map Prod.fst).Nodup
  wf : ∀ c p, dictGet? st.parties c = some p → PartyWF c p
  map_to_roster : ∀ u c, dictGet? st.user_party_map u = some c →
    ∃ p, dictGet? st.parties c = some p ∧ (memGet? p.members u).isSome = true
  roster_to_map : ∀ c p, dictGet? st.parties c = some p →
    ∀ m ∈ p.members, dictGet? st.user_party_map m.user_id = some c

/-- Transport fail set with no failing connections, for concrete runs. -/
def demo_fails : Nat → Bool := fun _ => false

/-- Concrete oracle for the demonstration runs: byte block of zeros, so the
    generated party code is AAAAAA. -/
def demo_o : Oracle :=
  { now := "2025-01-01T00:00:00", chatId := "uuid-chat",
    sysId1 := "uuid-sys1", sysId2 := "uuid-sys2",
    codeBytes := [[0, 0, 0, 0, 0, 0]] }

/-- Result of Alice creating a party on the fresh registry. -/
def demo_r : PotluckManager × List SendRec × Potluck :=
  (create_party demo_fails demo_o PotluckManager.empty "alice" "Alice" "m1"
    "Movie X" "movie" 7).get (by decide)

/-- Registry with the single party AAAAAA whose sole member is host alice. -/
def demo_st1 : PotluckManager := demo_r.1

/-- Registry after bob joins party AAAAAA. -/
def demo_st2 : PotluckManager :=
  (join_party demo_fails demo_o demo_st1 "AAAAAA" "bob" "Bob" 8).1

/-- Registry after host alice plays at position 10. -/
def demo_st3 : PotluckManager :=
  (handle_message demo_fails demo_o demo_st2 "alice"
    { type := some "play", message := none, emoji := none, ready := none,
      time := some 10 }).1

/-- The party stored under AAAAAA in demo_st3. -/
def demo_party3 : Potluck :=
  (dictGet? demo_st3.parties "AAAAAA").get (by decide)

/-- The member record of bob inside demo_party3. -/
def demo_bob3 : PartyMember :=
  (memGet? demo_party3.members "bob").get (by decide)

/-- The member record of alice inside demo_party3. -/
def demo_alice3 : PartyMember :=
  (memGet? demo_party3.members "alice").get (by decide)

/-- The party stored under AAAAAA in demo_st1. -/
def demo_party1 : Potluck :=
  (dictGet? demo_st1.parties "AAAAAA").get (by decide)

/-- Registry after host alice seeks to position -1 in demo_st1: one
    operation applied to a reachable state. -/
def seekNeg_st : PotluckManager :=
  (handle_message demo_fails demo_o demo_st1 "alice"
    { type := some "seek", message := none, emoji := none, ready := none,
      time := some (-1) }).1

/-- The party stored under AAAAAA after the negative seek. -/
def seekNeg_party : Potluck :=
  (dictGet? seekNeg_st.parties "AAAAAA").get (by decide)

/-- Fail set in which exactly the connection with id 7 (alice) is closed. -/
def fails7 : Nat → Bool := fun n => n == 7

/-- Lookup in the empty dict. -/
@[simp] theorem dictGet?_nil {α : Type} (k : String) :
    dictGet? ([] : List (String × α)) k = none := rfl

/-- Lookup unfolding on a cons cell. -/
theorem dictGet?_cons {α : Type} (k0 : String) (v0 : α)
    (l : List (String × α)) (k : String) :
    dictGet? ((k0, v0) :: l) k = if k0 = k then some v0 else dictGet? l k :=
  rfl

/-- Lookup after assignment. -/
theorem dictGet?_dictSet {α : Type} (l : List (String × α)) (k : String)
    (v : α) (k' : String) :
    dictGet? (dictSet l k v) k' = if k = k' then some v else dictGet? l k' := by
  induction l with
  | nil =>
    by_cases h : k = k' <;> simp [dictSet, dictGet?_cons, h]
  | cons kv rest ih =>
    obtain ⟨k0, v0⟩ := kv
    by_cases h0 : k0 = k
    · subst h0
      by_cases h : k0 = k' <;> simp [dictSet, dictGet?_cons, h]
    · by_cases h : k0 = k'
      · subst h
        have hkk : ¬ k = k0 := fun he => h0 he.symm
        simp [dictSet, h0, dictGet?_cons, hkk]
      · simp [dictSet, h0, dictGet?_cons, h, ih]

/-- A key is absent exactly when lookup fails. -/
theorem dictGet?_eq_none_iff {α : Type} (l : List (String × α)) (k : String) :
    dictGet? l k = none ↔ k ∉ l.map Prod.fst := by
  induction l with
  | nil => simp
  | cons kv rest ih =>
    obtain ⟨k0, v0⟩ := kv
    rw [dictGet?_cons]
    by_cases h : k0 = k
    · subst h
      simp
    · simp only [h, if_false, List.map_cons, List.mem_cons, ih]
      constructor
      · intro hn hc
        rcases hc with hc | hc
        · exact h hc.symm
        · exact hn hc
      · intro hn hc
        exact hn (Or.inr hc)

/-- Keys after assignment: unchanged when present, appended when fresh. -/
theorem keys_dictSet {α : Type} (l : List (String × α)) (k : String) (v : α) :
    (dictSet l k v).map Prod.fst =
      if (dictGet? l k).isSome then l.map Prod.fst
      else l.map Prod.fst ++ [k] := by
  induction l with
  | nil => simp [dictSet]
  | cons kv rest ih =>
    obtain ⟨k0, v0⟩ := kv
    by_cases h : k0 = k
    · subst h
      simp [dictSet, dictGet?_cons]
    · rw [show dictSet ((k0, v0) :: rest) k v = (k0, v0) :: dictSet rest k v by
        simp [dictSet, h]]
      rw [dictGet?_cons, if_neg h]
      by_cases hs : (dictGet? rest k).isSome
      · simp [hs, ih]
      · simp [hs, ih]

/-- Assignment preserves distinctness of keys. -/
theorem nodup_keys_dictSet {α : Type} (l : List (String × α)) (k : String)
    (v : α) (h : (l.map Prod.fst).Nodup) :
    ((dictSet l k v).map Prod.fst).Nodup := by
  rw [keys_dictSet]
  by_cases hs : (dictGet? l k).isSome
  · simpa [hs] using h
  · have hk : k ∉ l.map Prod.fst := by
      rw [← dictGet?_eq_none_iff]
      exact Option.not_isSome_iff_eq_none.mp hs
    simp [hs, List.nodup_append, h, hk]

/-- Deletion yields a sublist. -/
theorem dictDel_sublist {α : Type} (l : List (String × α)) (k : String) :
    (dictDel l k).Sublist l := by
  induction l with
  | nil => simp [dictDel]
  | cons kv rest ih =>
    obtain ⟨k0, v0⟩ := kv
    by_cases h : k0 = k
    · rw [show dictDel ((k0, v0) :: rest) k = rest by simp [dictDel, h]]
      exact List.sublist_cons_self _ _
    · rw [show dictDel ((k0, v0) :: rest) k = (k0, v0) :: dictDel rest k by
        simp [dictDel, h]]
      exact ih.cons₂ _

/-- Deletion preserves distinctness of keys. -/
theorem nodup_keys_dictDel {α : Type} (l : List (String × α)) (k : String)
    (h : (l.map Prod.fst).Nodup) : ((dictDel l k).map Prod.fst).Nodup :=
  ((dictDel_sublist l k).map Prod.fst).nodup h

/-- Deleting one key leaves other lookups alone. -/
theorem dictGet?_dictDel_ne {α : Type} (l : List (String × α)) (k k' : String)
    (h : k' ≠ k) : dictGet? (dictDel l k) k' = dictGet? l k' := by
  induction l with
  | nil => simp [dictDel]
  | cons kv rest ih =>
    obtain ⟨k0, v0⟩ := kv
    by_cases h0 : k0 = k
    · subst h0
      have hne : ¬ k0 = k' := fun he => h he.symm
      simp [dictDel, dictGet?_cons, hne]
    · rw [show dictDel ((k0, v0) :: rest) k = (k0, v0) :: dictDel rest k by
        simp [dictDel, h0]]
      simp [dictGet?_cons, ih]

/-- With distinct keys, a deleted key cannot be looked up any more. -/
theorem dictGet?_dictDel_self {α : Type} (l : List (String × α)) (k : String)
    (h : (l.map Prod.fst).Nodup) : dictGet? (dictDel l k) k = none := by
  induction l with
  | nil => simp [dictDel]
  | cons kv rest ih =>
    obtain ⟨k0, v0⟩ := kv
    simp only [List.map_cons, List.nodup_cons] at h
    by_cases h0 : k0 = k
    · subst h0
      rw [show dictDel ((k0, v0) :: rest) k0 = rest by simp [dictDel]]
      rw [dictGet?_eq_none_iff]
      exact h.1
    · rw [show dictDel ((k0, v0) :: rest) k = (k0, v0) :: dictDel rest k by
        simp [dictDel, h0]]
      simp [dictGet?_cons, h0, ih h.2]

/-- Roster lookup in the empty roster. -/
@[simp] theorem memGet?_nil (u : String) : memGet? [] u = none := rfl

/-- Roster lookup unfolding on a cons cell. -/
theorem memGet?_cons (m : PartyMember) (ms : List PartyMember) (u : String) :
    memGet? (m :: ms) u = if m.user_id = u then some m else memGet? ms u :=
  rfl

/-- A found member carries the looked-up id. -/
theorem memGet?_user_id {ms : List PartyMember} {u : String} {m : PartyMember}
    (h : memGet? ms u = some m) : m.user_id = u := by
  induction ms with
  | nil => simp at h
  | cons m0 rest ih =>
    rw [memGet?_cons] at h
    by_cases h0 : m0.user_id = u
    · simp [h0] at h
      rw [← h]
      exact h0
    · simp [h0] at h
      exact ih h

/-- A found member belongs to the roster. -/
theorem memGet?_mem {ms : List PartyMember} {u : String} {m : PartyMember}
    (h : memGet? ms u = some m) : m ∈ ms := by
  induction ms with
  | nil => simp at h
  | cons m0 rest ih =>
    rw [memGet?_cons] at h
    by_cases h0 : m0.user_id = u
    · simp [h0] at h
      simp [h]
    · simp [h0] at h
      exact List.mem_cons_of_mem _ (ih h)

/-- Roster lookup fails exactly when the id is absent. -/
theorem memGet?_eq_none_iff (ms : List PartyMember) (u : String) :
    memGet? ms u = none ↔ u ∉ ms.map PartyMember.user_id := by
  induction ms with
  | nil => simp
  | cons m0 rest ih =>
    rw [memGet?_cons]
    by_cases h : m0.user_id = u
    · simp [h]
    · simp only [h, if_false, List.map_cons, List.mem_cons, ih]
      constructor
      · intro hn hc
        rcases hc with hc | hc
        · exact h hc.symm
        · exact hn hc
      · intro hn hc
        exact hn (Or.inr hc)

/-- Roster lookup after roster assignment. -/
theorem memGet?_memSet (ms : List PartyMember) (m : PartyMember) (u : String) :
    memGet? (memSet ms m) u =
      if m.user_id = u then some m else memGet? ms u := by
  induction ms with
  | nil =>
    by_cases h : m.user_id = u <;> simp [memSet, memGet?_cons, h]
  | cons m0 rest ih =>
    by_cases h0 : m0.user_id = m.user_id
    · rw [show memSet (m0 :: rest) m = m :: rest by simp [memSet, h0]]
      by_cases h : m.user_id = u
      · simp [memGet?_cons, h]
      · have h0u : ¬ m0.user_id = u := by rw [h0]; exact h
        simp [memGet?_cons, h, h0u]
    · rw [show memSet (m0 :: rest) m = m0 :: memSet rest m by
        simp [memSet, h0]]
      by_cases h1 : m0.user_id = u
      · have hmu : ¬ m.user_id = u := fun he => h0 (h1.trans he.symm)
        simp [memGet?_cons, h1, hmu]
      · simp [memGet?_cons, h1, ih]

/-- Keys after roster assignment: unchanged when the id is present,
    appended when fresh. -/
theorem keys_memSet (ms : List PartyMember) (m : PartyMember) :
    (memSet ms m).map PartyMember.user_id =
      if (memGet? ms m.user_id).isSome then ms.map PartyMember.user_id
      else ms.map PartyMember.user_id ++ [m.user_id] := by
  induction ms with
  | nil => simp [memSet]
  | cons m0 rest ih =>
    by_cases h : m0.user_id = m.user_id
    · simp [memSet, h, memGet?_cons]
    · by_cases hs : (memGet? rest m.user_id).isSome <;>
        simp [memSet, h, memGet?_cons, ih, hs]

/-- Roster assignment preserves distinctness of member ids. -/
theorem nodup_keys_memSet (ms : List PartyMember) (m : PartyMember)
    (h : (ms.map PartyMember.user_id).Nodup) :
    ((memSet ms m).map PartyMember.user_id).Nodup := by
  rw [keys_memSet]
  by_cases hs : (memGet? ms m.user_id).isSome
  · simpa [hs] using h
  · have hk : m.user_id ∉ ms.map PartyMember.user_id := by
      rw [← memGet?_eq_none_iff]
      exact Option.not_isSome_iff_eq_none.mp hs
    simp [hs, List.nodup_append, h, hk]

/-- Every element of an updated roster is the new member or an old one. -/
theorem mem_memSet {ms : List PartyMember} {m x : PartyMember}
    (h : x ∈ memSet ms m) : x = m ∨ x ∈ ms := by
  induction ms with
  | nil =>
    simp [memSet] at h
    exact Or.inl h
  | cons m0 rest ih =>
    by_cases h0 : m0.user_id = m.user_id
    · simp [memSet, h0] at h
      rcases h with h | h
      · exact Or.inl h
      · exact Or.inr (List.mem_cons_of_mem _ h)
    · simp [memSet, h0] at h
      rcases h with h | h
      · exact Or.inr (by simp [h])
      · rcases ih h with h1 | h1
        · exact Or.inl h1
        · exact Or.inr (List.mem_cons_of_mem _ h1)

/-- An updated roster is never empty. -/
theorem memSet_ne_nil (ms : List PartyMember) (m : PartyMember) :
    memSet ms m ≠ [] := by
  cases ms with
  | nil => simp [memSet]
  | cons m0 rest =>
    by_cases h0 : m0.user_id = m.user_id <;> simp [memSet, h0]

/-- Roster removal yields a sublist. -/
theorem memDel_sublist (ms : List PartyMember) (u : String) :
    (memDel ms u).Sublist ms := by
  induction ms with
  | nil => simp [memDel]
  | cons m0 rest ih =>
    by_cases h : m0.user_id = u
    · rw [show memDel (m0 :: rest) u = rest by simp [memDel, h]]
      exact List.sublist_cons_self _ _
    · rw [show memDel (m0 :: rest) u = m0 :: memDel rest u by
        simp [memDel, h]]
      exact ih.cons₂ _

/-- Removal preserves distinctness of member ids. -/
theorem nodup_keys_memDel (ms : List PartyMember) (u : String)
    (h : (ms.map PartyMember.user_id).Nodup) :
    ((memDel ms u).map PartyMember.user_id).Nodup :=
  ((memDel_sublist ms u).map PartyMember.user_id).nodup h

/-- Removing one id leaves other roster lookups alone. -/
theorem memGet?_memDel_ne (ms : List PartyMember) (u u' : String)
    (h : u' ≠ u) : memGet? (memDel ms u) u' = memGet? ms u' := by
  induction ms with
  | nil => simp [memDel]
  | cons m0 rest ih =>
    by_cases h0 : m0.user_id = u
    · rw [show memDel (m0 :: rest) u = rest by simp [memDel, h0]]
      have hne : ¬ m0.user_id = u' := by
        rw [h0]
        exact fun he => h he.symm
      simp [memGet?_cons, hne]
    · rw [show memDel (m0 :: rest) u = m0 :: memDel rest u by
        simp [memDel, h0]]
      simp [memGet?_cons, ih]

/-- With distinct ids, a removed member cannot be looked up any more. -/
theorem memGet?_memDel_self (ms : List PartyMember) (u : String)
    (h : (ms.map PartyMember.user_id).Nodup) :
    memGet? (memDel ms u) u = none := by
  induction ms with
  | nil => simp [memDel]
  | cons m0 rest ih =>
    simp only [List.map_cons, List.nodup_cons] at h
    by_cases h0 : m0.user_id = u
    · rw [show memDel (m0 :: rest) u = rest by simp [memDel, h0]]
      rw [memGet?_eq_none_iff, ← h0]
      exact h.1
    · rw [show memDel (m0 :: rest) u = m0 :: memDel rest u by
        simp [memDel, h0]]
      simp [memGet?_cons, h0, ih h.2]

/-- Members surviving a removal were already there. -/
theorem mem_memDel {ms : List PartyMember} {u : String} {x : PartyMember}
    (h : x ∈ memDel ms u) : x ∈ ms :=
  (memDel_sublist ms u).mem h

/-- With distinct ids, members surviving a removal have another id. -/
theorem mem_memDel_user_ne {ms : List PartyMember} {u : String}
    {x : PartyMember} (hn : (ms.map PartyMember.user_id).Nodup)
    (h : x ∈ memDel ms u) : x.user_id ≠ u := by
  induction ms with
  | nil => simp [memDel] at h
  | cons m0 rest ih =>
    simp only [List.map_cons, List.nodup_cons] at hn
    by_cases h0 : m0.user_id = u
    · subst h0
      simp only [memDel, if_true] at h
      intro he
      exact hn.1 (by rw [← he]; exact List.mem_map_of_mem _ h)
    · simp only [memDel, h0, if_false] at h
      rcases List.mem_cons.mp h with h1 | h1
      · rw [h1]
        exact h0
      · exact ih hn.2 h1

/-- An emptied roster had at most the removed member. -/
theorem memDel_eq_nil {ms : List PartyMember} {u : String}
    (h : memDel ms u = []) : ∀ x ∈ ms, x.user_id = u := by
  cases ms with
  | nil => simp
  | cons m0 rest =>
    by_cases h0 : m0.user_id = u
    · simp only [memDel, h0, if_true] at h
      subst h
      intro x hx
      simp at hx
      rw [hx]
      exact h0
    · simp [memDel, h0] at h

/-- Appending a chat message leaves the roster alone. -/
@[simp] theorem add_chat_message_members (p : Potluck) (m : ChatMessage) :
    (p.add_chat_message m).members = p.members := by
  simp only [Potluck.add_chat_message]
  split <;> rfl

/-- Appending a chat message leaves the host id alone. -/
@[simp] theorem add_chat_message_host_id (p : Potluck) (m : ChatMessage) :
    (p.add_chat_message m).host_id = p.host_id := by
  simp only [Potluck.add_chat_message]
  split <;> rfl

/-- Appending a chat message leaves the playing flag alone. -/
@[simp] theorem add_chat_message_is_playing (p : Potluck) (m : ChatMessage) :
    (p.add_chat_message m).is_playing = p.is_playing := by
  simp only [Potluck.add_chat_message]
  split <;> rfl

/-- Appending a chat message leaves the position alone. -/
@[simp] theorem add_chat_message_current_time (p : Potluck) (m : ChatMessage) :
    (p.add_chat_message m).current_time = p.current_time := by
  simp only [Potluck.add_chat_message]
  split <;> rfl

/-- Appending a chat message leaves the rate alone. -/
@[simp] theorem add_chat_message_playback_rate (p : Potluck) (m : ChatMessage) :
    (p.add_chat_message m).playback_rate = p.playback_rate := by
  simp only [Potluck.add_chat_message]
  split <;> rfl

/-- Appending a chat message leaves the threshold alone. -/
@[simp] theorem add_chat_message_sync_threshold (p : Potluck) (m : ChatMessage) :
    (p.add_chat_message m).sync_threshold = p.sync_threshold := by
  simp only [Potluck.add_chat_message]
  split <;> rfl

/-- A system message leaves the roster alone. -/
@[simp] theorem send_system_message_members (fails : Nat → Bool)
    (i n : String) (p : Potluck) (t : String) :
    (send_system_message fails i n p t).1.members = p.members := by
  simp [send_system_message]

/-- A system message leaves the host id alone. -/
@[simp] theorem send_system_message_host_id (fails : Nat → Bool)
    (i n : String) (p : Potluck) (t : String) :
    (send_system_message fails i n p t).1.host_id = p.host_id := by
  simp [send_system_message]

/-- A system message leaves the playing flag alone. -/
@[simp] theorem send_system_message_is_playing (fails : Nat → Bool)
    (i n : String) (p : Potluck) (t : String) :
    (send_system_message fails i n p t).1.is_playing = p.is_playing := by
  simp [send_system_message]

/-- A system message leaves the position alone. -/
@[simp] theorem send_system_message_current_time (fails : Nat → Bool)
    (i n : String) (p : Potluck) (t : String) :
    (send_system_message fails i n p t).1.current_time = p.current_time := by
  simp [send_system_message]

/-- A system message leaves the rate alone. -/
@[simp] theorem send_system_message_playback_rate (fails : Nat → Bool)
    (i n : String) (p : Potluck) (t : String) :
    (send_system_message fails i n p t).1.playback_rate = p.playback_rate := by
  simp [send_system_message]

/-- A system message leaves the threshold alone. -/
@[simp] theorem send_system_message_sync_threshold (fails : Nat → Bool)
    (i n : String) (p : Potluck) (t : String) :
    (send_system_message fails i n p t).1.sync_threshold = p.sync_threshold := by
  simp [send_system_message]

/-- Indexing with a default yields a list element or the default. -/
theorem getD_mem_or (l : List Char) (i : Nat) (d : Char) :
    l.getD i d ∈ l ∨ l.getD i d = d := by
  induction l generalizing i with
  | nil =>
    right
    simp [List.getD_nil]
  | cons c rest ih =>
    cases i with
    | zero =>
      left
      simp [List.getD_cons_zero]
    | succ j =>
      rw [List.getD_cons_succ]
      rcases ih j with h | h
      · left
        exact List.mem_cons_of_mem _ h
      · right
        exact h

/-- Every character of the code alphabet is uppercase-fixed. -/
theorem party_code_chars_upper : ∀ c ∈ party_code_chars, c.toUpper = c := by
  decide

/-- Generated codes are already uppercase-normal. -/
theorem pyUpper_generate (bytes : List Nat) :
    pyUpper (generate_party_code bytes) = generate_party_code bytes := by
  unfold pyUpper generate_party_code
  have hfix : ∀ b : Nat,
      (party_code_chars.getD (b % party_code_chars.length) 'A').toUpper =
        party_code_chars.getD (b % party_code_chars.length) 'A' := by
    intro b
    rcases getD_mem_or party_code_chars (b % party_code_chars.length) 'A' with
      h | h
    · exact party_code_chars_upper _ h
    · rw [h]
      decide
  have : ((bytes.take 6).map
        (fun b => party_code_chars.getD (b % party_code_chars.length) 'A')).map
        Char.toUpper =
      (bytes.take 6).map
        (fun b => party_code_chars.getD (b % party_code_chars.length) 'A') := by
    rw [List.map_map]
    apply List.map_congr_left
    intro b _
    exact hfix b
  simp only [String.toList, this]

/-- What a successful code pick guarantees: the code is fresh and was
    generated from one of the drawn byte blocks. -/
theorem pickCode_spec {parties : List (String × Potluck)}
    {bs : List (List Nat)} {c : String} (h : pickCode parties bs = some c) :
    dictGet? parties c = none ∧ ∃ b ∈ bs, generate_party_code b = c := by
  unfold pickCode at h
  have h1 := List.find?_some h
  have h2 := List.mem_of_find?_eq_some h
  constructor
  · simpa [Option.isNone_iff_eq_none] using h1
  · simpa using h2

/-- Picked codes are uppercase-normal. -/
theorem pickCode_upper {parties : List (String × Potluck)}
    {bs : List (List Nat)} {c : String} (h : pickCode parties bs = some c) :
    pyUpper c = c := by
  obtain ⟨-, b, -, hb⟩ := pickCode_spec h
  rw [← hb]
  exact pyUpper_generate b

/-- Single-target delivery always produces exactly one attempt record,
    marked delivered exactly when the connection is not in the fail set. -/
theorem send_to_member_eq (fails : Nat → Bool) (member : PartyMember)
    (msg : OutMsg) :
    send_to_member fails member msg =
      [{ target_user := member.user_id, target_ws := member.ws, msg := msg,
         delivered := !(fails member.ws) }] := by
  unfold send_to_member websocket_send_json
  cases h : fails member.ws <;> simp [h]

/-- Every non-excluded roster member gets an attempt record in a
    broadcast, delivered exactly when its own connection works, regardless
    of any other failing connections. -/
theorem mem_broadcast (fails : Nat → Bool) (party : Potluck) (msg : OutMsg)
    (exclude : Option String) (m : PartyMember) (hm : m ∈ party.members)
    (hx : excludeHit exclude m.user_id = false) :
    { target_user := m.user_id, target_ws := m.ws, msg := msg,
      delivered := !(fails m.ws) } ∈ broadcast fails party msg exclude := by
  unfold broadcast
  rw [List.mem_flatMap]
  refine ⟨m, hm, ?_⟩
  rw [hx]
  simp [send_to_member_eq]

/-- A roster with a found member is non-empty. -/
theorem memGet?_ne_nil {ms : List PartyMember} {u : String}
    (h : (memGet? ms u).isSome = true) : ms ≠ [] := by
  cases ms with
  | nil => simp at h
  | cons m rest => simp

/-- In a roster with distinct ids whose only flagged member is the one
    registered under the host key, filtering on the flag yields exactly
    that member. -/
theorem filter_host_eq_single {ms : List PartyMember} {k : String}
    {hm : PartyMember} (hn : (ms.map PartyMember.user_id).Nodup)
    (hget : memGet? ms k = some hm) (hhost : hm.is_host = true)
    (huniq : ∀ m ∈ ms, m.is_host = true → m.user_id = k) :
    ms.filter (fun m => m.is_host) = [hm] := by
  induction ms with
  | nil => simp at hget
  | cons m0 rest ih =>
    simp only [List.map_cons, List.nodup_cons] at hn
    rw [memGet?_cons] at hget
    by_cases h0 : m0.user_id = k
    · rw [if_pos h0] at hget
      injection hget with hget
      subst hget
      rw [List.filter_cons_of_pos (by simpa using hhost)]
      have hrest : rest.filter (fun m => m.is_host) = [] := by
        rw [List.filter_eq_nil_iff]
        intro m hm1
        intro hcontra
        have hmk : m.user_id = k :=
          huniq m (List.mem_cons_of_mem _ hm1) (by simpa using hcontra)
        apply hn.1
        have heq : m0.user_id = m.user_id := h0.trans hmk.symm
        rw [heq]
        exact List.mem_map_of_mem _ hm1
      rw [hrest]
    · rw [if_neg h0] at hget
      have hm0 : m0.is_host = false := by
        cases hcase : m0.is_host
        · rfl
        · exact absurd (huniq m0 (List.mem_cons_self _ _) hcase) h0
      rw [List.filter_cons_of_neg (by simp [hm0])]
      exact ih hn.2 hget
        (fun m hm1 hh => huniq m (List.mem_cons_of_mem _ hm1) hh)

/-- In a roster with distinct ids, membership determines the lookup. -/
theorem memGet?_of_mem_nodup {ms : List PartyMember} {x : PartyMember}
    (hn : (ms.map PartyMember.user_id).Nodup) (hx : x ∈ ms) :
    memGet? ms x.user_id = some x := by
  induction ms with
  | nil => simp at hx
  | cons m0 rest ih =>
    simp only [List.map_cons, List.nodup_cons] at hn
    rcases List.mem_cons.mp hx with h | h
    · subst h
      simp [memGet?_cons]
    · rw [memGet?_cons]
      have hne : ¬ m0.user_id = x.user_id := by
        intro he
        apply hn.1
        rw [he]
        exact List.mem_map_of_mem _ h
      rw [if_neg hne]
      exact ih hn.2 h

/-- Leaving the current party never touches other keys of the registry:
    the departing branches all compute a leave outcome of these shapes. -/
theorem leave_party_none (fails : Nat → Bool) (o : Oracle) (st : PotluckManager)
    (u : String) (h1 : dictGet? st.user_party_map u = none) :
    leave_party fails o st u = (st, [], false) := by
  simp [leave_party, h1]

/-- Leave with a stale index entry only erases the index entry. -/
theorem leave_party_stale (fails : Nat → Bool) (o : Oracle) (st : PotluckManager)
    (u c : String) (h1 : dictGet? st.user_party_map u = some c)
    (h2 : dictGet? st.parties c = none) :
    leave_party fails o st u =
      ({ st with user_party_map := dictDel st.user_party_map u }, [], false) := by
  simp [leave_party, h1, h2]

/-- Leave by the host of a party emptied by the removal destroys the
    party. -/
theorem leave_party_destroy (fails : Nat → Bool) (o : Oracle)
    (st : PotluckManager) (u c : String) (p : Potluck) (m : PartyMember)
    (h1 : dictGet? st.user_party_map u = some c)
    (h2 : dictGet? st.parties c = some p)
    (hm : memGet? p.members u = some m)
    (hh : p.host_id = u)
    (hd : memDel p.members u = []) :
    (leave_party fails o st u).1 =
      { parties := dictDel st.parties c,
        user_party_map := dictDel st.user_party_map u } := by
  simp [leave_party, h1, h2, Potluck.remove_member, hm, hh, hd]

/-- Leave by the host of a still-populated party promotes the first
    remaining member. -/
theorem leave_party_transfer (fails : Nat → Bool) (o : Oracle)
    (st : PotluckManager) (u c : String) (p : Potluck) (m first : PartyMember)
    (rest : List PartyMember)
    (h1 : dictGet? st.user_party_map u = some c)
    (h2 : dictGet? st.parties c = some p)
    (hm : memGet? p.members u = some m)
    (hh : p.host_id = u)
    (hd : memDel p.members u = first :: rest) :
    ∃ q : Potluck,
      (leave_party fails o st u).1 =
        { parties := dictSet st.parties c q,
          user_party_map := dictDel st.user_party_map u } ∧
      q.members = { first with is_host := true } :: rest ∧
      q.host_id = first.user_id ∧
      q.is_playing = p.is_playing ∧
      q.current_time = p.current_time ∧
      q.sync_threshold = p.sync_threshold := by
  refine ⟨({ ({ p with members := memDel p.members u } : Potluck).add_chat_message
      { id := o.sysId1, user_id := "system", username := "System",
        message := m.username ++ " left the party", timestamp := o.now,
        message_type := "system" } with
      members := { first with is_host := true } :: rest,
      host_id := first.user_id }).add_chat_message
      { id := o.sysId2, user_id := "system", username := "System",
        message := first.username ++ " is now the host",
        timestamp := o.now, message_type := "system" }, ?_, ?_, ?_, ?_, ?_, ?_⟩
  · simp [leave_party, h1, h2, Potluck.remove_member, hm, hh, hd,
      send_system_message]
  · simp
  · simp
  · simp
  · simp
  · simp

/-- Leave by a non-host member keeps the party with a reduced roster. -/
theorem leave_party_nonhost (fails : Nat → Bool) (o : Oracle)
    (st : PotluckManager) (u c : String) (p : Potluck) (m : PartyMember)
    (h1 : dictGet? st.user_party_map u = some c)
    (h2 : dictGet? st.parties c = some p)
    (hm : memGet? p.members u = some m)
    (hh : ¬ p.host_id = u) :
    (leave_party fails o st u).1 =
      { parties := dictSet st.parties c
          (({ p with members := memDel p.members u } : Potluck).add_chat_message
            { id := o.sysId1, user_id := "system", username := "System",
              message := m.username ++ " left the party", timestamp := o.now,
              message_type := "system" }),
        user_party_map := dictDel st.user_party_map u } := by
  simp [leave_party, h1, h2, Potluck.remove_member, hm, hh, send_system_message]

/-- Replacing one registered party with a variant that keeps the same
    member ids, the same host id field, and the same host flag under every
    lookup preserves the registry invariant. -/
theorem reginv_update_party {st : PotluckManager} (hinv : RegInv st)
    {c : String} {p q : Potluck} (h2 : dictGet? st.parties c = some p)
    (hkeys : q.members.map PartyMember.user_id =
      p.members.map PartyMember.user_id)
    (hhost_id : q.host_id = p.host_id)
    (hlook : ∀ u', (memGet? q.members u').map PartyMember.is_host =
      (memGet? p.members u').map PartyMember.is_host) :
    RegInv { st with parties := dictSet st.parties c q } := by
  have hwfp := hinv.wf c p h2
  have hqnodup : (q.members.map PartyMember.user_id).Nodup := by
    rw [hkeys]
    exact hwfp.nodupKeys
  have hsome : ∀ u', (memGet? q.members u').isSome =
      (memGet? p.members u').isSome := by
    intro u'
    have := hlook u'
    cases hq : memGet? q.members u' <;> cases hp : memGet? p.members u' <;>
      rw [hq, hp] at this <;> simp_all
  have hwfq : PartyWF c q := by
    constructor
    · intro he
      have : p.members.map PartyMember.user_id = [] := by
        rw [← hkeys, he]
        rfl
      exact hwfp.nonempty (by simpa using this)
    · exact hqnodup
    · obtain ⟨hm, hget, hhost⟩ := hwfp.host_mem
      have := hlook p.host_id
      rw [hget] at this
      cases hq : memGet? q.members p.host_id with
      | none => rw [hq] at this; simp at this
      | some qm =>
        rw [hq] at this
        simp only [Option.map_some'] at this
        refine ⟨qm, ?_, ?_⟩
        · rw [hhost_id]; exact hq
        · injection this with hv
          rw [hv]; exact hhost
    · intro m hm hhostm
      have hget : memGet? q.members m.user_id = some m :=
        memGet?_of_mem_nodup hqnodup hm
      have := hlook m.user_id
      rw [hget] at this
      cases hp : memGet? p.members m.user_id with
      | none => rw [hp] at this; simp at this
      | some pm =>
        rw [hp] at this
        simp only [Option.map_some'] at this
        have hpmhost : pm.is_host = true := by
          injection this with hv
          rw [← hv]; exact hhostm
        have := hwfp.host_unique pm (memGet?_mem hp) hpmhost
        rw [hhost_id, ← this]
        exact (memGet?_user_id hp).symm
    · exact hwfp.upperCode
  constructor
  · exact nodup_keys_dictSet _ _ _ hinv.partiesNodup
  · exact hinv.mapNodup
  · intro c' p' hp'
    rw [dictGet?_dictSet] at hp'
    by_cases hc : c = c'
    · rw [if_pos hc] at hp'
      injection hp' with hv
      subst hv
      subst hc
      exact hwfq
    · rw [if_neg hc] at hp'
      exact hinv.wf c' p' hp'
  · intro u' c' hu'
    obtain ⟨p', hp', hsm⟩ := hinv.map_to_roster u' c' hu'
    by_cases hc : c = c'
    · subst hc
      rw [h2] at hp'
      injection hp' with hv
      subst hv
      refine ⟨q, ?_, ?_⟩
      · rw [dictGet?_dictSet, if_pos rfl]
      · rw [hsome u']
        exact hsm
    · refine ⟨p', ?_, hsm⟩
      rw [dictGet?_dictSet, if_neg hc]
      exact hp'
  · intro c' p' hp' m hm
    rw [dictGet?_dictSet] at hp'
    by_cases hc : c = c'
    · rw [if_pos hc] at hp'
      injection hp' with hv
      rw [← hv] at hm
      have hget : memGet? q.members m.user_id = some m :=
        memGet?_of_mem_nodup hqnodup hm
      have hps : (memGet? p.members m.user_id).isSome = true := by
        rw [← hsome m.user_id, hget]
        rfl
      obtain ⟨pm, hpm⟩ := Option.isSome_iff_exists.mp hps
      have huid : pm.user_id = m.user_id := memGet?_user_id hpm
      have := hinv.roster_to_map c p h2 pm (memGet?_mem hpm)
      rw [huid] at this
      rw [← hc]
      exact this
    · rw [if_neg hc] at hp'
      exact hinv.roster_to_map c' p' hp' m hm

/-- Overwriting the same key twice keeps only the second value. -/
theorem dictSet_dictSet {α : Type} (l : List (String × α)) (k : String)
    (v w : α) : dictSet (dictSet l k v) k w = dictSet l k w := by
  induction l with
  | nil => simp [dictSet]
  | cons kv rest ih =>
    obtain ⟨k0, v0⟩ := kv
    by_cases h : k0 = k
    · simp [dictSet, h]
    · simp [dictSet, h, ih]

/-- Destroying the session of the last member preserves the invariant. -/
theorem reginv_destroy {st : PotluckManager} (hinv : RegInv st) {c u : String}
    {p : Potluck} (h1 : dictGet? st.user_party_map u = some c)
    (h2 : dictGet? st.parties c = some p)
    (hd : memDel p.members u = []) :
    RegInv { parties := dictDel st.parties c,
             user_party_map := dictDel st.user_party_map u } := by
  have honly : ∀ x ∈ p.members, x.user_id = u := memDel_eq_nil hd
  constructor
  · exact nodup_keys_dictDel _ _ hinv.partiesNodup
  · exact nodup_keys_dictDel _ _ hinv.mapNodup
  · intro c' p' hp'
    by_cases hc : c' = c
    · subst hc
      rw [dictGet?_dictDel_self _ _ hinv.partiesNodup] at hp'
      exact absurd hp' (by simp)
    · rw [dictGet?_dictDel_ne _ _ _ hc] at hp'
      exact hinv.wf c' p' hp'
  · intro u' c' hu'
    by_cases hu : u' = u
    · subst hu
      rw [dictGet?_dictDel_self _ _ hinv.mapNodup] at hu'
      exact absurd hu' (by simp)
    · rw [dictGet?_dictDel_ne _ _ _ hu] at hu'
      obtain ⟨p', hp', hsm⟩ := hinv.map_to_roster u' c' hu'
      by_cases hc : c' = c
      · subst hc
        rw [h2] at hp'
        injection hp' with hv
        subst hv
        obtain ⟨m', hm'⟩ := Option.isSome_iff_exists.mp hsm
        have hthis := honly m' (memGet?_mem hm')
        rw [memGet?_user_id hm'] at hthis
        exact absurd hthis hu
      · refine ⟨p', ?_, hsm⟩
        rw [dictGet?_dictDel_ne _ _ _ hc]
        exact hp'
  · intro c' p' hp' m' hm'
    by_cases hc : c' = c
    · subst hc
      rw [dictGet?_dictDel_self _ _ hinv.partiesNodup] at hp'
      exact absurd hp' (by simp)
    · rw [dictGet?_dictDel_ne _ _ _ hc] at hp'
      have hmap := hinv.roster_to_map c' p' hp' m' hm'
      have hne : m'.user_id ≠ u := by
        intro he
        rw [he, h1] at hmap
        injection hmap with hv
        exact hc hv.symm
      rw [dictGet?_dictDel_ne _ _ _ hne]
      exact hmap

/-- Host departure with remaining members: promoting the first remaining
    member preserves the invariant. -/
theorem reginv_transfer {st : PotluckManager} (hinv : RegInv st) {c u : String}
    {p q : Potluck} {first : PartyMember} {rest : List PartyMember}
    (h1 : dictGet? st.user_party_map u = some c)
    (h2 : dictGet? st.parties c = some p)
    (hh : p.host_id = u)
    (hd : memDel p.members u = first :: rest)
    (hqm : q.members = { first with is_host := true } :: rest)
    (hqh : q.host_id = first.user_id) :
    RegInv { parties := dictSet st.parties c q,
             user_party_map := dictDel st.user_party_map u } := by
  have hwfp := hinv.wf c p h2
  have h1st : first ∈ memDel p.members u := by
    rw [hd]
    exact List.mem_cons_self _ _
  have hne_del : ∀ x ∈ memDel p.members u, x.user_id ≠ u :=
    fun x hx => mem_memDel_user_ne hwfp.nodupKeys hx
  have hkeys_nh : ({ first with is_host := true } :: rest).map
      PartyMember.user_id = (first :: rest).map PartyMember.user_id := by
    simp
  have hwfq : PartyWF c q := by
    constructor
    · rw [hqm]
      exact fun h => List.noConfusion h
    · rw [hqm, hkeys_nh, ← hd]
      exact nodup_keys_memDel _ _ hwfp.nodupKeys
    · refine ⟨{ first with is_host := true }, ?_, rfl⟩
      rw [hqm, hqh]
      simp [memGet?_cons]
    · intro m' hm' hhost'
      rw [hqm] at hm'
      rcases List.mem_cons.mp hm' with hcase | hcase
      · rw [hcase, hqh]
      · have hmem : m' ∈ memDel p.members u := by
          rw [hd]
          exact List.mem_cons_of_mem _ hcase
        have := hwfp.host_unique m' (mem_memDel hmem) hhost'
        rw [hh] at this
        exact absurd this (hne_del m' hmem)
    · exact hwfp.upperCode
  constructor
  · exact nodup_keys_dictSet _ _ _ hinv.partiesNodup
  · exact nodup_keys_dictDel _ _ hinv.mapNodup
  · intro c' p' hp'
    rw [dictGet?_dictSet] at hp'
    by_cases hc : c = c'
    · rw [if_pos hc] at hp'
      injection hp' with hv
      subst hc
      rw [← hv]
      exact hwfq
    · rw [if_neg hc] at hp'
      exact hinv.wf c' p' hp'
  · intro u' c' hu'
    by_cases hu : u' = u
    · subst hu
      rw [dictGet?_dictDel_self _ _ hinv.mapNodup] at hu'
      exact absurd hu' (by simp)
    · rw [dictGet?_dictDel_ne _ _ _ hu] at hu'
      obtain ⟨p', hp', hsm⟩ := hinv.map_to_roster u' c' hu'
      by_cases hc : c' = c
      · subst hc
        rw [h2] at hp'
        injection hp' with hv
        subst hv
        refine ⟨q, ?_, ?_⟩
        · rw [dictGet?_dictSet, if_pos rfl]
        · have hchain : memGet? (first :: rest) u' = memGet? p.members u' := by
            rw [← hd]
            exact memGet?_memDel_ne _ _ _ hu
          rw [hqm]
          by_cases hfu : first.user_id = u'
          · simp [memGet?_cons, hfu]
          · rw [memGet?_cons, if_neg (by simpa using hfu)]
            rw [show memGet? rest u' = memGet? p.members u' by
              rw [← hchain, memGet?_cons, if_neg hfu]]
            exact hsm
      · refine ⟨p', ?_, hsm⟩
        rw [dictGet?_dictSet, if_neg (fun he => hc he.symm)]
        exact hp'
  · intro c' p' hp' m' hm'
    rw [dictGet?_dictSet] at hp'
    by_cases hc : c = c'
    · rw [if_pos hc] at hp'
      injection hp' with hv
      rw [← hv, hqm] at hm'
      subst hc
      rcases List.mem_cons.mp hm' with hcase | hcase
      · have hfu : first.user_id ≠ u := hne_del first h1st
        have hmapf : dictGet? st.user_party_map first.user_id = some c :=
          hinv.roster_to_map c p h2 first (mem_memDel h1st)
        have hids : m'.user_id = first.user_id := by
          rw [hcase]
        rw [hids, dictGet?_dictDel_ne _ _ _ hfu]
        exact hmapf
      · have hmem : m' ∈ memDel p.members u := by
          rw [hd]
          exact List.mem_cons_of_mem _ hcase
        have hfu : m'.user_id ≠ u := hne_del m' hmem
        rw [dictGet?_dictDel_ne _ _ _ hfu]
        exact hinv.roster_to_map c p h2 m' (mem_memDel hmem)
    · rw [if_neg hc] at hp'
      have hmap := hinv.roster_to_map c' p' hp' m' hm'
      have hne : m'.user_id ≠ u := by
        intro he
        rw [he, h1] at hmap
        injection hmap with hv
        exact hc hv
      rw [dictGet?_dictDel_ne _ _ _ hne]
      exact hmap

/-- Removing a non-host member preserves the invariant. -/
theorem reginv_remove_nonhost {st : PotluckManager} (hinv : RegInv st)
    {c u : String} {p q : Potluck}
    (h1 : dictGet? st.user_party_map u = some c)
    (h2 : dictGet? st.parties c = some p)
    (hh : ¬ p.host_id = u)
    (hqm : q.members = memDel p.members u)
    (hqh : q.host_id = p.host_id) :
    RegInv { parties := dictSet st.parties c q,
             user_party_map := dictDel st.user_party_map u } := by
  have hwfp := hinv.wf c p h2
  have hne_del : ∀ x ∈ memDel p.members u, x.user_id ≠ u :=
    fun x hx => mem_memDel_user_ne hwfp.nodupKeys hx
  obtain ⟨hostm, hostget, hosthost⟩ := hwfp.host_mem
  have hostget' : memGet? (memDel p.members u) p.host_id = some hostm := by
    rw [memGet?_memDel_ne _ _ _ hh]
    exact hostget
  have hwfq : PartyWF c q := by
    constructor
    · rw [hqm]
      exact memGet?_ne_nil (by rw [hostget']; rfl)
    · rw [hqm]
      exact nodup_keys_memDel _ _ hwfp.nodupKeys
    · refine ⟨hostm, ?_, hosthost⟩
      rw [hqm, hqh]
      exact hostget'
    · intro m' hm' hhost'
      rw [hqm] at hm'
      rw [hqh]
      exact hwfp.host_unique m' (mem_memDel hm') hhost'
    · exact hwfp.upperCode
  constructor
  · exact nodup_keys_dictSet _ _ _ hinv.partiesNodup
  · exact nodup_keys_dictDel _ _ hinv.mapNodup
  · intro c' p' hp'
    rw [dictGet?_dictSet] at hp'
    by_cases hc : c = c'
    · rw [if_pos hc] at hp'
      injection hp' with hv
      subst hc
      rw [← hv]
      exact hwfq
    · rw [if_neg hc] at hp'
      exact hinv.wf c' p' hp'
  · intro u' c' hu'
    by_cases hu : u' = u
    · subst hu
      rw [dictGet?_dictDel_self _ _ hinv.mapNodup] at hu'
      exact absurd hu' (by simp)
    · rw [dictGet?_dictDel_ne _ _ _ hu] at hu'
      obtain ⟨p', hp', hsm⟩ := hinv.map_to_roster u' c' hu'
      by_cases hc : c' = c
      · subst hc
        rw [h2] at hp'
        injection hp' with hv
        subst hv
        refine ⟨q, ?_, ?_⟩
        · rw [dictGet?_dictSet, if_pos rfl]
        · rw [hqm, memGet?_memDel_ne _ _ _ hu]
          exact hsm
      · refine ⟨p', ?_, hsm⟩
        rw [dictGet?_dictSet, if_neg (fun he => hc he.symm)]
        exact hp'
  · intro c' p' hp' m' hm'
    rw [dictGet?_dictSet] at hp'
    by_cases hc : c = c'
    · rw [if_pos hc] at hp'
      injection hp' with hv
      rw [← hv, hqm] at hm'
      subst hc
      have hfu : m'.user_id ≠ u := hne_del m' hm'
      rw [dictGet?_dictDel_ne _ _ _ hfu]
      exact hinv.roster_to_map c p h2 m' (mem_memDel hm')
    · rw [if_neg hc] at hp'
      have hmap := hinv.roster_to_map c' p' hp' m' hm'
      have hne : m'.user_id ≠ u := by
        intro he
        rw [he, h1] at hmap
        injection hmap with hv
        exact hc hv
      rw [dictGet?_dictDel_ne _ _ _ hne]
      exact hmap

/-- Adding a fresh non-host member to a registered party and indexing it
    preserves the invariant. -/
theorem reginv_add_member {st : PotluckManager} (hinv : RegInv st)
    {c u : String} {p q : Potluck} {member : PartyMember}
    (h2 : dictGet? st.parties c = some p)
    (hu_map : dictGet? st.user_party_map u = none)
    (hmem : member.user_id = u)
    (hhost : member.is_host = false)
    (hqm : q.members = memSet p.members member)
    (hqh : q.host_id = p.host_id) :
    RegInv { parties := dictSet st.parties c q,
             user_party_map := dictSet st.user_party_map u c } := by
  have hwfp := hinv.wf c p h2
  have hufresh : ∀ x ∈ p.members, x.user_id ≠ u := by
    intro x hx he
    have := hinv.roster_to_map c p h2 x hx
    rw [he, hu_map] at this
    exact Option.noConfusion this
  have hpu_none : memGet? p.members u = none := by
    rw [memGet?_eq_none_iff]
    intro hmemb
    obtain ⟨x, hx, hxe⟩ := List.mem_map.mp hmemb
    exact hufresh x hx hxe
  have hhostne : p.host_id ≠ u := by
    obtain ⟨hostm, hostget, -⟩ := hwfp.host_mem
    intro he
    rw [he, hpu_none] at hostget
    exact Option.noConfusion hostget
  have hwfq : PartyWF c q := by
    constructor
    · rw [hqm]
      exact memSet_ne_nil _ _
    · rw [hqm]
      exact nodup_keys_memSet _ _ hwfp.nodupKeys
    · obtain ⟨hostm, hostget, hosthost⟩ := hwfp.host_mem
      refine ⟨hostm, ?_, hosthost⟩
      rw [hqm, hqh, memGet?_memSet,
        if_neg (by rw [hmem]; exact fun he => hhostne he.symm)]
      exact hostget
    · intro m' hm' hhost'
      rw [hqm] at hm'
      rcases mem_memSet hm' with hcase | hcase
      · rw [hcase] at hhost'
        rw [hhost] at hhost'
        exact Bool.noConfusion hhost'
      · rw [hqh]
        exact hwfp.host_unique m' hcase hhost'
    · exact hwfp.upperCode
  constructor
  · exact nodup_keys_dictSet _ _ _ hinv.partiesNodup
  · exact nodup_keys_dictSet _ _ _ hinv.mapNodup
  · intro c' p' hp'
    rw [dictGet?_dictSet] at hp'
    by_cases hc : c = c'
    · rw [if_pos hc] at hp'
      injection hp' with hv
      subst hc
      rw [← hv]
      exact hwfq
    · rw [if_neg hc] at hp'
      exact hinv.wf c' p' hp'
  · intro u' c' hu'
    rw [dictGet?_dictSet] at hu'
    by_cases hu : u = u'
    · rw [if_pos hu] at hu'
      injection hu' with hv
      subst hv
      subst hu
      refine ⟨q, ?_, ?_⟩
      · rw [dictGet?_dictSet, if_pos rfl]
      · rw [hqm, memGet?_memSet, hmem, if_pos rfl]
        rfl
    · rw [if_neg hu] at hu'
      obtain ⟨p', hp', hsm⟩ := hinv.map_to_roster u' c' hu'
      by_cases hc : c' = c
      · subst hc
        rw [h2] at hp'
        injection hp' with hv
        subst hv
        refine ⟨q, ?_, ?_⟩
        · rw [dictGet?_dictSet, if_pos rfl]
        · rw [hqm, memGet?_memSet, hmem, if_neg hu]
          exact hsm
      · refine ⟨p', ?_, hsm⟩
        rw [dictGet?_dictSet, if_neg (fun he => hc he.symm)]
        exact hp'
  · intro c' p' hp' m' hm'
    rw [dictGet?_dictSet] at hp'
    by_cases hc : c = c'
    · rw [if_pos hc] at hp'
      injection hp' with hv
      rw [← hv, hqm] at hm'
      subst hc
      rcases mem_memSet hm' with hcase | hcase
      · rw [hcase, hmem, dictGet?_dictSet, if_pos rfl]
      · rw [dictGet?_dictSet, if_neg (fun he => hufresh m' hcase he.symm)]
        exact hinv.roster_to_map c p h2 m' hcase
    · rw [if_neg hc] at hp'
      have hmap := hinv.roster_to_map c' p' hp' m' hm'
      have hne : u ≠ m'.user_id := by
        intro he
        rw [← he, hu_map] at hmap
        exact Option.noConfusion hmap
      rw [dictGet?_dictSet, if_neg hne]
      exact hmap

/-- Registering a fresh single-host party under a fresh uppercase code
    preserves the invariant. -/
theorem reginv_create_party {st : PotluckManager} (hinv : RegInv st)
    {c u : String} {q : Potluck} {member : PartyMember}
    (hfresh : dictGet? st.parties c = none)
    (hu_map : dictGet? st.user_party_map u = none)
    (hqm : q.members = [member])
    (hqh : q.host_id = u)
    (hmem : member.user_id = u)
    (hhost : member.is_host = true)
    (hupper : pyUpper c = c) :
    RegInv { parties := dictSet st.parties c q,
             user_party_map := dictSet st.user_party_map u c } := by
  have hwfq : PartyWF c q := by
    constructor
    · rw [hqm]
      exact fun h => List.noConfusion h
    · rw [hqm]
      simp
    · refine ⟨member, ?_, hhost⟩
      rw [hqm, hqh, memGet?_cons, if_pos hmem]
    · intro m' hm' hhost'
      rw [hqm] at hm'
      rw [List.mem_singleton] at hm'
      rw [hm', hmem, hqh]
    · exact hupper
  constructor
  · exact nodup_keys_dictSet _ _ _ hinv.partiesNodup
  · exact nodup_keys_dictSet _ _ _ hinv.mapNodup
  · intro c' p' hp'
    rw [dictGet?_dictSet] at hp'
    by_cases hc : c = c'
    · rw [if_pos hc] at hp'
      injection hp' with hv
      subst hc
      rw [← hv]
      exact hwfq
    · rw [if_neg hc] at hp'
      exact hinv.wf c' p' hp'
  · intro u' c' hu'
    rw [dictGet?_dictSet] at hu'
    by_cases hu : u = u'
    · rw [if_pos hu] at hu'
      injection hu' with hv
      subst hv
      subst hu
      refine ⟨q, ?_, ?_⟩
      · rw [dictGet?_dictSet, if_pos rfl]
      · rw [hqm, memGet?_cons, if_pos hmem]
        rfl
    · rw [if_neg hu] at hu'
      obtain ⟨p', hp', hsm⟩ := hinv.map_to_roster u' c' hu'
      by_cases hc : c' = c
      · subst hc
        rw [hfresh] at hp'
        exact Option.noConfusion hp'
      · refine ⟨p', ?_, hsm⟩
        rw [dictGet?_dictSet, if_neg (fun he => hc he.symm)]
        exact hp'
  · intro c' p' hp' m' hm'
    rw [dictGet?_dictSet] at hp'
    by_cases hc : c = c'
    · rw [if_pos hc] at hp'
      injection hp' with hv
      rw [← hv, hqm] at hm'
      subst hc
      rw [List.mem_singleton] at hm'
      rw [hm', hmem, dictGet?_dictSet, if_pos rfl]
    · rw [if_neg hc] at hp'
      have hmap := hinv.roster_to_map c' p' hp' m' hm'
      have hne : u ≠ m'.user_id := by
        intro he
        rw [← he, hu_map] at hmap
        exact Option.noConfusion hmap
      rw [dictGet?_dictSet, if_neg hne]
      exact hmap

/-- After leaving, the participant is no longer indexed. -/
theorem leave_party_map_none (fails : Nat → Bool) (o : Oracle)
    (st : PotluckManager) (u : String)
    (hnodup : (st.user_party_map.map Prod.fst).Nodup) :
    dictGet? (leave_party fails o st u).1.user_party_map u = none := by
  cases h1 : dictGet? st.user_party_map u with
  | none =>
    rw [leave_party_none fails o st u h1]
    exact h1
  | some c =>
    cases h2 : dictGet? st.parties c with
    | none =>
      rw [leave_party_stale fails o st u c h1 h2]
      exact dictGet?_dictDel_self _ _ hnodup
    | some p =>
      cases hmm : memGet? p.members u with
      | none =>
        by_cases hh : p.host_id = u
        · cases hd : memDel p.members u with
          | nil =>
            have := leave_party_destroy fails o st u c p
            simp only [leave_party, h1, h2, Potluck.remove_member, hmm, hh,
              hd]
            exact dictGet?_dictDel_self _ _ hnodup
          | cons first rest =>
            simp only [leave_party, h1, h2, Potluck.remove_member, hmm, hh,
              hd]
            exact dictGet?_dictDel_self _ _ hnodup
        · simp only [leave_party, h1, h2, Potluck.remove_member, hmm, hh]
          exact dictGet?_dictDel_self _ _ hnodup
      | some m =>
        by_cases hh : p.host_id = u
        · cases hd : memDel p.members u with
          | nil =>
            rw [leave_party_destroy fails o st u c p m h1 h2 hmm hh hd]
            exact dictGet?_dictDel_self _ _ hnodup
          | cons first rest =>
            obtain ⟨q, hres, -, -, -, -, -⟩ :=
              leave_party_transfer fails o st u c p m first rest h1 h2 hmm hh
                hd
            rw [hres]
            exact dictGet?_dictDel_self _ _ hnodup
        · rw [leave_party_nonhost fails o st u c p m h1 h2 hmm hh]
          exact dictGet?_dictDel_self _ _ hnodup

/-- leave_party preserves the registry invariant. -/
theorem leave_party_inv (fails : Nat → Bool) (o : Oracle)
    (st : PotluckManager) (u : String) (hinv : RegInv st) :
    RegInv (leave_party fails o st u).1 := by
  cases h1 : dictGet? st.user_party_map u with
  | none =>
    rw [leave_party_none fails o st u h1]
    exact hinv
  | some c =>
    obtain ⟨p, h2, hm⟩ := hinv.map_to_roster u c h1
    obtain ⟨m, hmm⟩ := Option.isSome_iff_exists.mp hm
    by_cases hh : p.host_id = u
    · cases hd : memDel p.members u with
      | nil =>
        rw [leave_party_destroy fails o st u c p m h1 h2 hmm hh hd]
        exact reginv_destroy hinv h1 h2 hd
      | cons first rest =>
        obtain ⟨q, hres, hqm, hqh, -, -, -⟩ :=
          leave_party_transfer fails o st u c p m first rest h1 h2 hmm hh hd
        rw [hres]
        exact reginv_transfer hinv h1 h2 hh hd hqm hqh
    · rw [leave_party_nonhost fails o st u c p m h1 h2 hmm hh]
      exact reginv_remove_nonhost hinv h1 h2 hh (by simp) (by simp)
/-- join_party preserves the registry invariant, in every outcome
    including the KeyError raise. -/
theorem join_party_inv (fails : Nat → Bool) (o : Oracle) (st : PotluckManager)
    (code u name : String) (ws : Nat) (hinv : RegInv st) :
    RegInv (join_party fails o st code u name ws).1 := by
  cases hA : dictGet? st.parties (pyUpper code) with
  | none =>
    have heq : (join_party fails o st code u name ws).1 = st := by
      simp [join_party, hA]
    rw [heq]
    exact hinv
  | some pA =>
    by_cases hB : (dictGet? st.user_party_map u).isSome
    · have hinv0 : RegInv (leave_party fails o st u).1 :=
        leave_party_inv fails o st u hinv
      have hu0 : dictGet? (leave_party fails o st u).1.user_party_map u =
          none := leave_party_map_none fails o st u hinv.mapNodup
      cases hC : dictGet? (leave_party fails o st u).1.parties
          (pyUpper code) with
      | none =>
        have heq : (join_party fails o st code u name ws).1 =
            (leave_party fails o st u).1 := by
          simp [join_party, hA, hB, hC]
        rw [heq]
        exact hinv0
      | some p0 =>
        have heq : (join_party fails o st code u name ws).1 =
            { parties := dictSet (leave_party fails o st u).1.parties
                (pyUpper code)
                ((send_system_message fails o.sysId1 o.now
                  (p0.add_member
                    (⟨u, name, ws, false, o.now, false, 0⟩ : PartyMember))
                  (name ++ " joined the party")).1),
              user_party_map := dictSet
                (leave_party fails o st u).1.user_party_map u
                (pyUpper code) } := by
          simp [join_party, hA, hB, hC, dictSet_dictSet]
        rw [heq]
        exact @reginv_add_member _ hinv0 _ u _ _
          ⟨u, name, ws, false, o.now, false, 0⟩ hC hu0 rfl rfl
          (by simp [Potluck.add_member]) (by simp [Potluck.add_member])
    · have hu0 : dictGet? st.user_party_map u = none :=
        Option.not_isSome_iff_eq_none.mp hB
      have heq : (join_party fails o st code u name ws).1 =
          { parties := dictSet st.parties (pyUpper code)
              ((send_system_message fails o.sysId1 o.now
                (pA.add_member
                  (⟨u, name, ws, false, o.now, false, 0⟩ : PartyMember))
                (name ++ " joined the party")).1),
            user_party_map := dictSet st.user_party_map u (pyUpper code) } := by
        simp [join_party, hA, hB, dictSet_dictSet]
      rw [heq]
      exact @reginv_add_member _ hinv _ u _ _
        ⟨u, name, ws, false, o.now, false, 0⟩ hA hu0 rfl rfl
        (by simp [Potluck.add_member]) (by simp [Potluck.add_member])

/-- create_party preserves the registry invariant. -/
theorem create_party_inv (fails : Nat → Bool) (o : Oracle)
    (st : PotluckManager) (hid hname mid mtitle mtype : String) (ws : Nat)
    (r : PotluckManager × List SendRec × Potluck) (hinv : RegInv st)
    (h : create_party fails o st hid hname mid mtitle mtype ws = some r) :
    RegInv r.1 := by
  by_cases hB : (dictGet? st.user_party_map hid).isSome
  · have hinv0 : RegInv (leave_party fails o st hid).1 :=
      leave_party_inv fails o st hid hinv
    have hu0 : dictGet? (leave_party fails o st hid).1.user_party_map hid =
        none := leave_party_map_none fails o st hid hinv.mapNodup
    cases hP : pickCode (leave_party fails o st hid).1.parties
        o.codeBytes with
    | none =>
      simp [create_party, hB, hP] at h
    | some code =>
      simp only [create_party, hB, if_true] at h
      rw [hP] at h
      rw [← Option.some.inj h]
      simp only
      rw [dictSet_dictSet]
      exact @reginv_create_party _ hinv0 code hid _
        ⟨hid, hname, ws, true, o.now, true, 0⟩ (pickCode_spec hP).1 hu0
        (by simp [Potluck.add_member, memSet]) (by simp [Potluck.add_member])
        rfl rfl (pickCode_upper hP)
  · have hu0 : dictGet? st.user_party_map hid = none :=
      Option.not_isSome_iff_eq_none.mp hB
    cases hP : pickCode st.parties o.codeBytes with
    | none =>
      simp [create_party, hB, hP] at h
    | some code =>
      rw [Bool.not_eq_true] at hB
      simp only [create_party, hB, Bool.false_eq_true, if_false] at h
      rw [hP] at h
      rw [← Option.some.inj h]
      simp only
      rw [dictSet_dictSet]
      exact @reginv_create_party _ hinv code hid _
        ⟨hid, hname, ws, true, o.now, true, 0⟩ (pickCode_spec hP).1 hu0
        (by simp [Potluck.add_member, memSet]) (by simp [Potluck.add_member])
        rfl rfl (pickCode_upper hP)

/-- handle_message preserves the registry invariant for every event. -/
theorem handle_message_inv (fails : Nat → Bool) (o : Oracle)
    (st : PotluckManager) (u : String) (msg : InMessage) (hinv : RegInv st) :
    RegInv (handle_message fails o st u msg).1 := by
  cases h1 : dictGet? st.user_party_map u with
  | none =>
    have heq : (handle_message fails o st u msg).1 = st := by
      simp [handle_message, h1]
    rw [heq]
    exact hinv
  | some c =>
    cases h2 : dictGet? st.parties c with
    | none =>
      have heq : (handle_message fails o st u msg).1 = st := by
        simp [handle_message, h1, h2]
      rw [heq]
      exact hinv
    | some p =>
      cases h3 : memGet? p.members u with
      | none =>
        have heq : (handle_message fails o st u msg).1 = st := by
          simp [handle_message, h1, h2, h3]
        rw [heq]
        exact hinv
      | some member =>
        have hmu : member.user_id = u := memGet?_user_id h3
        by_cases t1 : msg.type = some "chat"
        · have heq : (handle_message fails o st u msg).1 =
              { st with parties := dictSet st.parties c
                              (p.add_chat_message
                                (⟨o.chatId, u, member.username,
                                  (msg.message.getD "").take 500, o.now,
                                  "chat"⟩ : ChatMessage)) } := by
            simp [handle_message, h1, h2, h3, t1]
          rw [heq]
          exact reginv_update_party hinv h2 (by simp) (by simp)
            (fun u' => by rw [add_chat_message_members])
        · by_cases t2 : msg.type = some "reaction"
          · have heq : (handle_message fails o st u msg).1 = st := by
              simp [handle_message, h1, h2, h3, t1, t2]
            rw [heq]
            exact hinv
          · by_cases t3 : msg.type = some "ready"
            · have heq : (handle_message fails o st u msg).1 =
                  { st with parties := dictSet st.parties c
                                  { p with members := memSet p.members { member with is_ready := msg.ready.getD true } } } := by
                simp [handle_message, h1, h2, h3, t1, t2, t3]
              rw [heq]
              refine reginv_update_party hinv h2 ?_ rfl ?_
              · rw [keys_memSet,
                  show ({ member with is_ready := msg.ready.getD true }
                    : PartyMember).user_id = u from hmu, h3]
                simp
              · intro u'
                rw [memGet?_memSet]
                by_cases he : ({ member with is_ready := msg.ready.getD true } : PartyMember).user_id = u'
                · rw [if_pos he]
                  have hu' : u' = u := by
                    rw [← he]
                    exact hmu
                  rw [hu', h3]
                  rfl
                · rw [if_neg he]
            · by_cases t4 : msg.type = some "seek"
              · by_cases hh : member.is_host = true
                · have heq : (handle_message fails o st u msg).1 =
                      { st with parties := dictSet st.parties c
                                      { p with current_time := msg.time.getD 0 } } := by
                    simp [handle_message, h1, h2, h3, t1, t2, t3, t4, hh]
                  rw [heq]
                  exact reginv_update_party hinv h2 rfl rfl (fun u' => rfl)
                · have heq : (handle_message fails o st u msg).1 = st := by
                    simp [handle_message, h1, h2, h3, t1, t2, t3, t4, hh]
                  rw [heq]
                  exact hinv
              · by_cases t5 : msg.type = some "play"
                · by_cases hh : member.is_host = true
                  · have heq : (handle_message fails o st u msg).1 =
                        { st with parties := dictSet st.parties c
                                        { p with is_playing := true, current_time := msg.time.getD p.current_time } } := by
                      simp [handle_message, h1, h2, h3, t1, t2, t3, t4, t5, hh]
                    rw [heq]
                    exact reginv_update_party hinv h2 rfl rfl (fun u' => rfl)
                  · have heq : (handle_message fails o st u msg).1 = st := by
                      simp [handle_message, h1, h2, h3, t1, t2, t3, t4, t5, hh]
                    rw [heq]
                    exact hinv
                · by_cases t6 : msg.type = some "pause"
                  · by_cases hh : member.is_host = true
                    · have heq : (handle_message fails o st u msg).1 =
                          { st with parties := dictSet st.parties c
                                          { p with is_playing := false, current_time := msg.time.getD p.current_time } } := by
                        simp [handle_message, h1, h2, h3, t1, t2, t3, t4, t5,
                          t6, hh]
                      rw [heq]
                      exact reginv_update_party hinv h2 rfl rfl (fun u' => rfl)
                    · have heq : (handle_message fails o st u msg).1 = st := by
                        simp [handle_message, h1, h2, h3, t1, t2, t3, t4, t5,
                          t6, hh]
                      rw [heq]
                      exact hinv
                  · by_cases t7 : msg.type = some "time_update"
                    · have heq : (handle_message fails o st u msg).1 =
                          { st with parties := dictSet st.parties c
                                          { p with members := memSet p.members { member with current_time := msg.time.getD 0 } } } := by
                        simp [handle_message, h1, h2, h3, t1, t2, t3, t4, t5,
                          t6, t7]
                      rw [heq]
                      refine reginv_update_party hinv h2 ?_ rfl ?_
                      · rw [keys_memSet,
                          show ({ member with current_time := msg.time.getD 0 } : PartyMember).user_id = u from hmu, h3]
                        simp
                      · intro u'
                        rw [memGet?_memSet]
                        by_cases he : ({ member with current_time := msg.time.getD 0 } : PartyMember).user_id = u'
                        · rw [if_pos he]
                          have hu' : u' = u := by
                            rw [← he]
                            exact hmu
                          rw [hu', h3]
                          rfl
                        · rw [if_neg he]
                    · have heq : (handle_message fails o st u msg).1 = st := by
                        simp [handle_message, h1, h2, h3, t1, t2, t3, t4, t5,
                          t6, t7]
                      rw [heq]
                      exact hinv

/-- The fresh registry satisfies the invariant. -/
theorem reginv_empty : RegInv PotluckManager.empty := by
  constructor
  · simp [PotluckManager.empty]
  · simp [PotluckManager.empty]
  · intro c p hp
    simp [PotluckManager.empty] at hp
  · intro u c hu
    simp [PotluckManager.empty] at hu
  · intro c p hp
    simp [PotluckManager.empty] at hp

/-- Every reachable registry state satisfies the invariant. -/
theorem reach_reginv {st : PotluckManager} (h : Reach st) : RegInv st := by
  induction h with
  | init => exact reginv_empty
  | step hr hs ih =>
    cases hs with
    | create fails o st1 hid hname mid mtitle mtype ws r hc =>
      exact create_party_inv _ _ _ _ _ _ _ _ _ _ ih hc
    | join fails o st1 code user_id username ws =>
      exact join_party_inv _ _ _ _ _ _ _ ih
    | leave fails o st1 user_id =>
      exact leave_party_inv _ _ _ _ ih
    | message fails o st1 user_id msg =>
      exact handle_message_inv _ _ _ _ _ ih

/-- A successful dict lookup comes from an entry of the list. -/
theorem dictGet?_entry_mem {α : Type} {l : List (String × α)} {k : String}
    {v : α} (h : dictGet? l k = some v) : (k, v) ∈ l := by
  induction l with
  | nil => simp at h
  | cons kv rest ih =>
    obtain ⟨k0, v0⟩ := kv
    rw [dictGet?_cons] at h
    by_cases h0 : k0 = k
    · rw [if_pos h0] at h
      injection h with hv
      subst h0
      subst hv
      exact List.mem_cons_self _ _
    · rw [if_neg h0] at h
      exact List.mem_cons_of_mem _ (ih h)

/-- Entries after assignment: the new binding or an old entry. -/
theorem mem_dictSet {α : Type} {l : List (String × α)} {k : String} {v : α}
    {e : String × α} (h : e ∈ dictSet l k v) : e = (k, v) ∨ e ∈ l := by
  induction l with
  | nil =>
    simp [dictSet] at h
    exact Or.inl h
  | cons kv rest ih =>
    obtain ⟨k0, v0⟩ := kv
    by_cases h0 : k0 = k
    · rw [show dictSet ((k0, v0) :: rest) k v = (k0, v) :: rest by
        simp [dictSet, h0]] at h
      rcases List.mem_cons.mp h with hc | hc
      · subst h0
        exact Or.inl hc
      · exact Or.inr (List.mem_cons_of_mem _ hc)
    · rw [show dictSet ((k0, v0) :: rest) k v = (k0, v0) :: dictSet rest k v by
        simp [dictSet, h0]] at h
      rcases List.mem_cons.mp h with hc | hc
      · exact Or.inr (by simp [hc])
      · rcases ih hc with hc1 | hc1
        · exact Or.inl hc1
        · exact Or.inr (List.mem_cons_of_mem _ hc1)

/-- leave_party keeps all stored playback positions. -/
theorem leave_party_pos (fails : Nat → Bool) (o : Oracle)
    (st : PotluckManager) (u : String) (hinv : RegInv st)
    (hpos : ∀ e ∈ st.parties, 0 ≤ (e.2 : Potluck).current_time) :
    ∀ e ∈ (leave_party fails o st u).1.parties,
      0 ≤ (e.2 : Potluck).current_time := by
  cases h1 : dictGet? st.user_party_map u with
  | none =>
    rw [leave_party_none fails o st u h1]
    exact hpos
  | some c =>
    obtain ⟨p, h2, hm⟩ := hinv.map_to_roster u c h1
    obtain ⟨m, hmm⟩ := Option.isSome_iff_exists.mp hm
    by_cases hh : p.host_id = u
    · cases hd : memDel p.members u with
      | nil =>
        rw [leave_party_destroy fails o st u c p m h1 h2 hmm hh hd]
        intro e he
        exact hpos e ((dictDel_sublist _ _).subset he)
      | cons first rest =>
        obtain ⟨q, hres, -, -, -, hqct, -⟩ :=
          leave_party_transfer fails o st u c p m first rest h1 h2 hmm hh hd
        rw [hres]
        intro e he
        rcases mem_dictSet he with hc | hc
        · rw [hc]
          simp only
          rw [hqct]
          exact hpos (c, p) (dictGet?_entry_mem h2)
        · exact hpos e hc
    · rw [leave_party_nonhost fails o st u c p m h1 h2 hmm hh]
      intro e he
      rcases mem_dictSet he with hc | hc
      · rw [hc]
        simp only [add_chat_message_current_time]
        exact hpos (c, p) (dictGet?_entry_mem h2)
      · exact hpos e hc

/-- join_party keeps all stored playback positions. -/
theorem join_party_pos (fails : Nat → Bool) (o : Oracle) (st : PotluckManager)
    (code u name : String) (ws : Nat) (hinv : RegInv st)
    (hpos : ∀ e ∈ st.parties, 0 ≤ (e.2 : Potluck).current_time) :
    ∀ e ∈ (join_party fails o st code u name ws).1.parties,
      0 ≤ (e.2 : Potluck).current_time := by
  cases hA : dictGet? st.parties (pyUpper code) with
  | none =>
    have heq : (join_party fails o st code u name ws).1 = st := by
      simp [join_party, hA]
    rw [heq]
    exact hpos
  | some pA =>
    by_cases hB : (dictGet? st.user_party_map u).isSome
    · have hpos0 := leave_party_pos fails o st u hinv hpos
      cases hC : dictGet? (leave_party fails o st u).1.parties
          (pyUpper code) with
      | none =>
        have heq : (join_party fails o st code u name ws).1 =
            (leave_party fails o st u).1 := by
          simp [join_party, hA, hB, hC]
        rw [heq]
        exact hpos0
      | some p0 =>
        have heq : (join_party fails o st code u name ws).1 =
            { parties := dictSet (leave_party fails o st u).1.parties
                (pyUpper code)
                ((send_system_message fails o.sysId1 o.now
                  (p0.add_member
                    (⟨u, name, ws, false, o.now, false, 0⟩ : PartyMember))
                  (name ++ " joined the party")).1),
              user_party_map := dictSet
                (leave_party fails o st u).1.user_party_map u
                (pyUpper code) } := by
          simp [join_party, hA, hB, hC, dictSet_dictSet]
        rw [heq]
        intro e he
        rcases mem_dictSet he with hc | hc
        · rw [hc]
          simp only [send_system_message_current_time]
          have : (p0.add_member
              (⟨u, name, ws, false, o.now, false, 0⟩ : PartyMember)).current_time =
              p0.current_time := rfl
          rw [this]
          exact hpos0 (pyUpper code, p0) (dictGet?_entry_mem hC)
        · exact hpos0 e hc
    · have heq : (join_party fails o st code u name ws).1 =
          { parties := dictSet st.parties (pyUpper code)
              ((send_system_message fails o.sysId1 o.now
                (pA.add_member
                  (⟨u, name, ws, false, o.now, false, 0⟩ : PartyMember))
                (name ++ " joined the party")).1),
            user_party_map := dictSet st.user_party_map u
              (pyUpper code) } := by
        simp [join_party, hA, hB, dictSet_dictSet]
      rw [heq]
      intro e he
      rcases mem_dictSet he with hc | hc
      · rw [hc]
        simp only [send_system_message_current_time]
        have hct : (pA.add_member
            (⟨u, name, ws, false, o.now, false, 0⟩ : PartyMember)).current_time =
            pA.current_time := rfl
        rw [hct]
        exact hpos (pyUpper code, pA) (dictGet?_entry_mem hA)
      · exact hpos e hc

/-- create_party keeps all stored playback positions; the new session
    starts at position zero. -/
theorem create_party_pos (fails : Nat → Bool) (o : Oracle)
    (st : PotluckManager) (hid hname mid mtitle mtype : String) (ws : Nat)
    (r : PotluckManager × List SendRec × Potluck) (hinv : RegInv st)
    (hpos : ∀ e ∈ st.parties, 0 ≤ (e.2 : Potluck).current_time)
    (h : create_party fails o st hid hname mid mtitle mtype ws = some r) :
    ∀ e ∈ r.1.parties, 0 ≤ (e.2 : Potluck).current_time := by
  by_cases hB : (dictGet? st.user_party_map hid).isSome
  · have hpos0 := leave_party_pos fails o st hid hinv hpos
    cases hP : pickCode (leave_party fails o st hid).1.parties
        o.codeBytes with
    | none =>
      simp [create_party, hB, hP] at h
    | some code =>
      simp only [create_party, hB, if_true] at h
      rw [hP] at h
      rw [← Option.some.inj h]
      simp only
      rw [dictSet_dictSet]
      intro e he
      rcases mem_dictSet he with hc | hc
      · rw [hc]
        simp only [send_system_message_current_time]
        exact le_refl 0
      · exact hpos0 e hc
  · cases hP : pickCode st.parties o.codeBytes with
    | none =>
      simp [create_party, hB, hP] at h
    | some code =>
      rw [Bool.not_eq_true] at hB
      simp only [create_party, hB, Bool.false_eq_true, if_false] at h
      rw [hP] at h
      rw [← Option.some.inj h]
      simp only
      rw [dictSet_dictSet]
      intro e he
      rcases mem_dictSet he with hc | hc
      · rw [hc]
        simp only [send_system_message_current_time]
        exact le_refl 0
      · exact hpos e hc

/-- handle_message keeps all stored playback positions when the event
    carries only nonnegative time payloads. -/
theorem handle_message_pos (fails : Nat → Bool) (o : Oracle)
    (st : PotluckManager) (u : String) (msg : InMessage)
    (hnn : msg.timeNonneg)
    (hpos : ∀ e ∈ st.parties, 0 ≤ (e.2 : Potluck).current_time) :
    ∀ e ∈ (handle_message fails o st u msg).1.parties,
      0 ≤ (e.2 : Potluck).current_time := by
  have hgetD0 : (0 : Rat) ≤ msg.time.getD 0 := by
    cases ht : msg.time with
    | none => simp
    | some t =>
      simp only [Option.getD_some]
      exact hnn t ht
  cases h1 : dictGet? st.user_party_map u with
  | none =>
    have heq : (handle_message fails o st u msg).1 = st := by
      simp [handle_message, h1]
    rw [heq]
    exact hpos
  | some c =>
    cases h2 : dictGet? st.parties c with
    | none =>
      have heq : (handle_message fails o st u msg).1 = st := by
        simp [handle_message, h1, h2]
      rw [heq]
      exact hpos
    | some p =>
      have hp0 : (0 : Rat) ≤ p.current_time :=
        hpos (c, p) (dictGet?_entry_mem h2)
      have hgetDp : (0 : Rat) ≤ msg.time.getD p.current_time := by
        cases ht : msg.time with
        | none => simpa using hp0
        | some t =>
          simp only [Option.getD_some]
          exact hnn t ht
      cases h3 : memGet? p.members u with
      | none =>
        have heq : (handle_message fails o st u msg).1 = st := by
          simp [handle_message, h1, h2, h3]
        rw [heq]
        exact hpos
      | some member =>
        by_cases t1 : msg.type = some "chat"
        · have heq : (handle_message fails o st u msg).1 =
              { st with parties := dictSet st.parties c
                              (p.add_chat_message
                                (⟨o.chatId, u, member.username,
                                  (msg.message.getD "").take 500, o.now,
                                  "chat"⟩ : ChatMessage)) } := by
            simp [handle_message, h1, h2, h3, t1]
          rw [heq]
          intro e he
          rcases mem_dictSet he with hc | hc
          · rw [hc]
            simpa using hp0
          · exact hpos e hc
        · by_cases t2 : msg.type = some "reaction"
          · have heq : (handle_message fails o st u msg).1 = st := by
              simp [handle_message, h1, h2, h3, t1, t2]
            rw [heq]
            exact hpos
          · by_cases t3 : msg.type = some "ready"
            · have heq : (handle_message fails o st u msg).1 =
                  { st with parties := dictSet st.parties c
                                  { p with members := memSet p.members { member with is_ready := msg.ready.getD true } } } := by
                simp [handle_message, h1, h2, h3, t1, t2, t3]
              rw [heq]
              intro e he
              rcases mem_dictSet he with hc | hc
              · rw [hc]
                simpa using hp0
              · exact hpos e hc
            · by_cases t4 : msg.type = some "seek"
              · by_cases hh : member.is_host = true
                · have heq : (handle_message fails o st u msg).1 =
                      { st with parties := dictSet st.parties c
                                      { p with current_time := msg.time.getD 0 } } := by
                    simp [handle_message, h1, h2, h3, t1, t2, t3, t4, hh]
                  rw [heq]
                  intro e he
                  rcases mem_dictSet he with hc | hc
                  · rw [hc]
                    simpa using hgetD0
                  · exact hpos e hc
                · have heq : (handle_message fails o st u msg).1 = st := by
                    simp [handle_message, h1, h2, h3, t1, t2, t3, t4, hh]
                  rw [heq]
                  exact hpos
              · by_cases t5 : msg.type = some "play"
                · by_cases hh : member.is_host = true
                  · have heq : (handle_message fails o st u msg).1 =
                        { st with parties := dictSet st.parties c
                                        { p with is_playing := true, current_time := msg.time.getD p.current_time } } := by
                      simp [handle_message, h1, h2, h3, t1, t2, t3, t4, t5, hh]
                    rw [heq]
                    intro e he
                    rcases mem_dictSet he with hc | hc
                    · rw [hc]
                      simpa using hgetDp
                    · exact hpos e hc
                  · have heq : (handle_message fails o st u msg).1 = st := by
                      simp [handle_message, h1, h2, h3, t1, t2, t3, t4, t5, hh]
                    rw [heq]
                    exact hpos
                · by_cases t6 : msg.type = some "pause"
                  · by_cases hh : member.is_host = true
                    · have heq : (handle_message fails o st u msg).1 =
                          { st with parties := dictSet st.parties c
                                          { p with is_playing := false, current_time := msg.time.getD p.current_time } } := by
                        simp [handle_message, h1, h2, h3, t1, t2, t3, t4, t5,
                          t6, hh]
                      rw [heq]
                      intro e he
                      rcases mem_dictSet he with hc | hc
                      · rw [hc]
                        simpa using hgetDp
                      · exact hpos e hc
                    · have heq : (handle_message fails o st u msg).1 = st := by
                        simp [handle_message, h1, h2, h3, t1, t2, t3, t4, t5,
                          t6, hh]
                      rw [heq]
                      exact hpos
                  · by_cases t7 : msg.type = some "time_update"
                    · have heq : (handle_message fails o st u msg).1 =
                          { st with parties := dictSet st.parties c
                                          { p with members := memSet p.members { member with current_time := msg.time.getD 0 } } } := by
                        simp [handle_message, h1, h2, h3, t1, t2, t3, t4, t5,
                          t6, t7]
                      rw [heq]
                      intro e he
                      rcases mem_dictSet he with hc | hc
                      · rw [hc]
                        simpa using hp0
                      · exact hpos e hc
                    · have heq : (handle_message fails o st u msg).1 = st := by
                        simp [handle_message, h1, h2, h3, t1, t2, t3, t4, t5,
                          t6, t7]
                      rw [heq]
                      exact hpos

/-- Nonnegative-payload runs are ordinary runs. -/
theorem reachnn_reach {st : PotluckManager} (h : ReachNN st) : Reach st := by
  induction h with
  | init => exact Reach.init
  | step hr hs ih =>
    refine Reach.step ih ?_
    cases hs with
    | create fails o st1 hid hname mid mtitle mtype ws r hc =>
      exact Step.create fails o _ hid hname mid mtitle mtype ws r hc
    | join fails o st1 code user_id username ws =>
      exact Step.join fails o _ code user_id username ws
    | leave fails o st1 user_id =>
      exact Step.leave fails o _ user_id
    | message fails o st1 user_id msg hnn =>
      exact Step.message fails o _ user_id msg

/-- In every state reachable with only nonnegative time payloads, every
    stored party entry has nonnegative position. -/
theorem reachnn_posall {st : PotluckManager} (h : ReachNN st) :
    ∀ e ∈ st.parties, 0 ≤ (e.2 : Potluck).current_time := by
  induction h with
  | init => simp [PotluckManager.empty]
  | step hr hs ih =>
    have hinv : RegInv _ := reach_reginv (reachnn_reach hr)
    cases hs with
    | create fails o st1 hid hname mid mtitle mtype ws r hc =>
      exact create_party_pos _ _ _ _ _ _ _ _ _ _ hinv ih hc
    | join fails o st1 code user_id username ws =>
      exact join_party_pos _ _ _ _ _ _ _ hinv ih
    | leave fails o st1 user_id =>
      exact leave_party_pos _ _ _ _ hinv ih
    | message fails o st1 user_id msg hnn =>
      exact handle_message_pos _ _ _ _ _ hnn ih

/-- The demonstration run: alice creates party AAAAAA on the fresh
    registry. -/
theorem demo_reach1 : Reach demo_st1 :=
  Reach.step Reach.init
    (Step.create demo_fails demo_o PotluckManager.empty "alice" "Alice"
      "m1" "Movie X" "movie" 7 demo_r (Option.some_get _).symm)

/-- The demonstration run continued: bob joins AAAAAA. -/
theorem demo_reach2 : Reach demo_st2 :=
  Reach.step demo_reach1
    (Step.join demo_fails demo_o demo_st1 "AAAAAA" "bob" "Bob" 8)

/-- The demonstration run continued: host alice plays at position 10. -/
theorem demo_reach3 : Reach demo_st3 :=
  Reach.step demo_reach2
    (Step.message demo_fails demo_o demo_st2 "alice"
      ⟨some "play", none, none, none, some 10⟩)

/-- The demonstration run is also a nonnegative-payload run. -/
theorem demo_reachnn1 : ReachNN demo_st1 :=
  ReachNN.step ReachNN.init
    (StepNN.create demo_fails demo_o PotluckManager.empty "alice" "Alice"
      "m1" "Movie X" "movie" 7 demo_r (Option.some_get _).symm)

/-- C1: in every reachable registry state, every registered session with a
    non-empty roster has exactly one member with is_host = true; this is
    preserved by create, join, leave and every handled event because
    Reach closes over all four operations. -/
theorem C1_single_host (st : PotluckManager) (h : Reach st) (c : String)
    (p : Potluck) (hp : dictGet? st.parties c = some p)
    (_hne : p.members ≠ []) :
    (p.members.filter (fun m => m.is_host)).length = 1 := by
  have hinv := reach_reginv h
  have hwf := hinv.wf c p hp
  obtain ⟨hm, hget, hhost⟩ := hwf.host_mem
  rw [filter_host_eq_single hwf.nodupKeys hget hhost hwf.host_unique]
  rfl

/-- Witness for C1 at the concrete reachable state demo_st1. -/
theorem C1_single_host_witness :
    Reach demo_st1 ∧
    dictGet? demo_st1.parties "AAAAAA" = some demo_party1 ∧
    demo_party1.members ≠ [] ∧
    (demo_party1.members.filter (fun m => m.is_host)).length = 1 :=
  ⟨demo_reach1, by decide, by decide,
    C1_single_host demo_st1 demo_reach1 "AAAAAA" demo_party1 (by decide)
      (by decide)⟩

/-- C2: in every reachable registry state the participant index and the
    rosters agree in both directions. -/
theorem C2_index_agreement (st : PotluckManager) (h : Reach st) :
    (∀ u c, dictGet? st.user_party_map u = some c →
      ∃ p, dictGet? st.parties c = some p ∧
        (memGet? p.members u).isSome = true) ∧
    (∀ c p, dictGet? st.parties c = some p →
      ∀ m ∈ p.members, dictGet? st.user_party_map m.user_id = some c) :=
  ⟨(reach_reginv h).map_to_roster, (reach_reginv h).roster_to_map⟩

/-- Witness for C2 at the concrete reachable state demo_st2. -/
theorem C2_index_agreement_witness :
    (∀ u c, dictGet? demo_st2.user_party_map u = some c →
      ∃ p, dictGet? demo_st2.parties c = some p ∧
        (memGet? p.members u).isSome = true) ∧
    (∀ c p, dictGet? demo_st2.parties c = some p →
      ∀ m ∈ p.members, dictGet? demo_st2.user_party_map m.user_id = some c) :=
  C2_index_agreement demo_st2 demo_reach2

/-- C3: a time_update reporting position t updates only the reporting
    last-reported position of the reporting member, and sends exactly one resync sync
    directive (with the session's is_playing, position and rate) to that
    member alone exactly when the session is playing and the drift
    exceeds the threshold; otherwise nothing is sent. -/
theorem C3_time_update_drift (fails : Nat → Bool) (o : Oracle)
    (st : PotluckManager) (u c : String) (p : Potluck) (m : PartyMember)
    (t : Rat)
    (h1 : dictGet? st.user_party_map u = some c)
    (h2 : dictGet? st.parties c = some p)
    (h3 : memGet? p.members u = some m) :
    (handle_message fails o st u
        ⟨some "time_update", none, none, none, some t⟩).1 =
      { st with parties := dictSet st.parties c
                      { p with members := memSet p.members { m with current_time := t } } } ∧
    ((handle_message fails o st u
        ⟨some "time_update", none, none, none, some t⟩).2.map
          (fun s => (s.target_user, s.msg)) =
      if p.is_playing = true ∧ p.sync_threshold < abs (t - p.current_time)
      then [(u, OutMsg.sync p.is_playing p.current_time p.playback_rate true)]
      else []) := by
  constructor
  · simp [handle_message, h1, h2, h3]
  · by_cases hcond : p.is_playing = true ∧
        p.sync_threshold < abs (t - p.current_time)
    · rw [if_pos hcond]
      simp [handle_message, h1, h2, h3, hcond, send_to_member_eq,
        memGet?_user_id h3]
    · rw [if_neg hcond]
      simp [handle_message, h1, h2, h3, hcond]

/-- Witness for C3: bob reports position 13 while the session plays at 10
    with threshold 2, and receives exactly one resync directive. -/
theorem C3_time_update_drift_witness :
    dictGet? demo_st3.user_party_map "bob" = some "AAAAAA" ∧
    dictGet? demo_st3.parties "AAAAAA" = some demo_party3 ∧
    memGet? demo_party3.members "bob" = some demo_bob3 ∧
    (handle_message demo_fails demo_o demo_st3 "bob"
        ⟨some "time_update", none, none, none, some 13⟩).2.map
      (fun s => (s.target_user, s.msg)) =
      [("bob", OutMsg.sync true 10 1 true)] := by
  refine ⟨by decide, by decide, by decide, ?_⟩
  have h := (C3_time_update_drift demo_fails demo_o demo_st3 "bob" "AAAAAA"
    demo_party3 demo_bob3 13 (by decide) (by decide) (by decide)).2
  have hcond : demo_party3.is_playing = true ∧
      demo_party3.sync_threshold < abs (13 - demo_party3.current_time) := by
    refine ⟨by decide, ?_⟩
    have e1 : demo_party3.sync_threshold = 2 := by decide
    have e2 : demo_party3.current_time = 10 := by decide
    rw [e1, e2, show ((13 : Rat) - 10) = 3 by norm_num,
      abs_of_nonneg (by norm_num : (0 : Rat) ≤ 3)]
    norm_num
  rw [h, if_pos hcond]
  decide

/-- C4: contrary to the claim, join_party raises KeyError (uncaught) when
    the joining participant is the sole host of the very session being
    joined: the implicit leave destroys the session and the subsequent
    dict indexing fails. Evaluated at the failing input. -/
theorem C4_sole_host_rejoin_keyerror :
    dictGet? demo_st1.parties "AAAAAA" = some demo_party1 ∧
    demo_party1.members.map PartyMember.user_id = ["alice"] ∧
    (join_party demo_fails demo_o demo_st1 "AAAAAA" "alice" "Alice" 7).2.2 =
      JoinOutcome.keyError := by decide

/-- C5: a seek, play or pause event from a member whose is_host flag is
    false leaves the whole registry untouched and sends nothing. -/
theorem C5_nonhost_playback_ignored (fails : Nat → Bool) (o : Oracle)
    (st : PotluckManager) (u c : String) (p : Potluck) (m : PartyMember)
    (msg : InMessage)
    (h1 : dictGet? st.user_party_map u = some c)
    (h2 : dictGet? st.parties c = some p)
    (h3 : memGet? p.members u = some m)
    (hhost : m.is_host = false)
    (hty : msg.type = some "seek" ∨ msg.type = some "play" ∨
      msg.type = some "pause") :
    handle_message fails o st u msg = (st, []) := by
  have hh : ¬ m.is_host = true := by
    rw [hhost]
    exact Bool.false_ne_true
  rcases hty with ht | ht | ht <;>
    simp [handle_message, h1, h2, h3, ht, hh]

/-- Witness for C5: non-host bob seeks and nothing happens. -/
theorem C5_nonhost_playback_ignored_witness :
    memGet? demo_party3.members "bob" = some demo_bob3 ∧
    demo_bob3.is_host = false ∧
    handle_message demo_fails demo_o demo_st3 "bob"
      ⟨some "seek", none, none, none, some 50⟩ = (demo_st3, []) := by
  refine ⟨by decide, by decide, ?_⟩
  exact C5_nonhost_playback_ignored demo_fails demo_o demo_st3 "bob"
    "AAAAAA" demo_party3 demo_bob3
    ⟨some "seek", none, none, none, some 50⟩
    (by decide) (by decide) (by decide) (by decide) (Or.inl rfl)

/-- C6 counterexample: a host seek with payload time -1 is accepted, so a
    reachable registry state stores a session with negative position,
    refuting both the reachable-state invariant and preservation for
    arbitrary payloads. -/
theorem C6_counterexample :
    Reach seekNeg_st ∧
    dictGet? seekNeg_st.parties "AAAAAA" = some seekNeg_party ∧
    seekNeg_party.current_time < 0 :=
  ⟨Reach.step demo_reach1
    (Step.message demo_fails demo_o demo_st1 "alice"
      ⟨some "seek", none, none, none, some (-1)⟩),
   by decide, by decide⟩

/-- C6 amended: in every registry state reachable by runs whose inbound
    events carry only nonnegative time payloads, every registered session
    has position at least 0; the code itself never validates payloads. -/
theorem C6_amended_nonneg_position (st : PotluckManager) (h : ReachNN st)
    (c : String) (p : Potluck) (hp : dictGet? st.parties c = some p) :
    0 ≤ p.current_time :=
  reachnn_posall h (c, p) (dictGet?_entry_mem hp)

/-- Witness for the amended C6 at the concrete state demo_st1. -/
theorem C6_amended_nonneg_position_witness :
    ReachNN demo_st1 ∧
    dictGet? demo_st1.parties "AAAAAA" = some demo_party1 ∧
    0 ≤ demo_party1.current_time :=
  ⟨demo_reachnn1, by decide,
    C6_amended_nonneg_position demo_st1 demo_reachnn1 "AAAAAA" demo_party1
      (by decide)⟩

/-- C7 counterexample: a host seek whose payload lacks the time field is
    not dropped: the position jumps from 10 to the default 0 and a sync
    broadcast goes out. -/
theorem C7_counterexample :
    memGet? demo_party3.members "alice" = some demo_alice3 ∧
    demo_alice3.is_host = true ∧
    demo_party3.current_time = 10 ∧
    (handle_message demo_fails demo_o demo_st3 "alice"
        ⟨some "seek", none, none, none, none⟩).1 ≠ demo_st3 ∧
    (handle_message demo_fails demo_o demo_st3 "alice"
        ⟨some "seek", none, none, none, none⟩).2 ≠ [] := by decide

/-- C7 amended: an event with a missing payload field is processed with
    the default of the corresponding dict get (chat message "", reaction
    emoji thumbs-up, ready true, seek and time_update time 0, play and
    pause time the current session position) instead of being dropped. -/
theorem C7_amended_missing_fields_defaulted (fails : Nat → Bool) (o : Oracle)
    (st : PotluckManager) (u c : String) (p : Potluck) (m : PartyMember)
    (h1 : dictGet? st.user_party_map u = some c)
    (h2 : dictGet? st.parties c = some p)
    (h3 : memGet? p.members u = some m) :
    handle_message fails o st u ⟨some "chat", none, none, none, none⟩ =
      handle_message fails o st u ⟨some "chat", some "", none, none, none⟩ ∧
    handle_message fails o st u ⟨some "reaction", none, none, none, none⟩ =
      handle_message fails o st u
        ⟨some "reaction", none, some "👍", none, none⟩ ∧
    handle_message fails o st u ⟨some "ready", none, none, none, none⟩ =
      handle_message fails o st u ⟨some "ready", none, none, some true, none⟩ ∧
    handle_message fails o st u ⟨some "seek", none, none, none, none⟩ =
      handle_message fails o st u ⟨some "seek", none, none, none, some 0⟩ ∧
    handle_message fails o st u ⟨some "time_update", none, none, none, none⟩ =
      handle_message fails o st u
        ⟨some "time_update", none, none, none, some 0⟩ ∧
    handle_message fails o st u ⟨some "play", none, none, none, none⟩ =
      handle_message fails o st u
        ⟨some "play", none, none, none, some p.current_time⟩ ∧
    handle_message fails o st u ⟨some "pause", none, none, none, none⟩ =
      handle_message fails o st u
        ⟨some "pause", none, none, none, some p.current_time⟩ := by
  refine ⟨rfl, rfl, rfl, rfl, rfl, ?_, ?_⟩
  · by_cases hh : m.is_host = true <;>
      simp [handle_message, h1, h2, h3, hh]
  · by_cases hh : m.is_host = true <;>
      simp [handle_message, h1, h2, h3, hh]

/-- Witness for the amended C7: a play from host alice with no time field
    equals a play reporting the current position. -/
theorem C7_amended_missing_fields_defaulted_witness :
    dictGet? demo_st3.user_party_map "alice" = some "AAAAAA" ∧
    dictGet? demo_st3.parties "AAAAAA" = some demo_party3 ∧
    memGet? demo_party3.members "alice" = some demo_alice3 ∧
    handle_message demo_fails demo_o demo_st3 "alice"
        ⟨some "play", none, none, none, none⟩ =
      handle_message demo_fails demo_o demo_st3 "alice"
        ⟨some "play", none, none, none, some demo_party3.current_time⟩ := by
  refine ⟨by decide, by decide, by decide, ?_⟩
  exact (C7_amended_missing_fields_defaulted demo_fails demo_o demo_st3
    "alice" "AAAAAA" demo_party3 demo_alice3 (by decide) (by decide)
    (by decide)).2.2.2.2.2.1

/-- C8: when leave_party removes the last remaining member of a session,
    the session is removed from the registry and a subsequent get_party
    with its code returns none. -/
theorem C8_last_leave_destroys (fails : Nat → Bool) (o : Oracle)
    (st : PotluckManager) (u c : String) (p : Potluck)
    (h : Reach st)
    (h1 : dictGet? st.user_party_map u = some c)
    (h2 : dictGet? st.parties c = some p)
    (hsole : p.members.map PartyMember.user_id = [u]) :
    get_party (leave_party fails o st u).1 c = none := by
  have hinv := reach_reginv h
  have hwf := hinv.wf c p h2
  obtain ⟨p', hp', hm⟩ := hinv.map_to_roster u c h1
  rw [h2] at hp'
  injection hp' with hv
  subst hv
  obtain ⟨m, hmm⟩ := Option.isSome_iff_exists.mp hm
  have hhost : p.host_id = u := by
    obtain ⟨hostm, hostget, -⟩ := hwf.host_mem
    have hid : hostm.user_id = p.host_id := memGet?_user_id hostget
    have hmem := memGet?_mem hostget
    have hin : p.host_id ∈ p.members.map PartyMember.user_id := by
      rw [← hid]
      exact List.mem_map_of_mem _ hmem
    rw [hsole] at hin
    simpa using hin
  have hd : memDel p.members u = [] := by
    cases hms : p.members with
    | nil => simp [memDel]
    | cons m0 rest =>
      rw [hms] at hsole
      simp only [List.map_cons] at hsole
      injection hsole with hA hB
      have hrest : rest = [] := List.map_eq_nil_iff.mp hB
      subst hrest
      simp [memDel, hA]
  rw [leave_party_destroy fails o st u c p m h1 h2 hmm hhost hd]
  unfold get_party
  simp only
  rw [hwf.upperCode]
  exact dictGet?_dictDel_self _ _ hinv.partiesNodup

/-- Witness for C8: sole host alice leaves AAAAAA and the code no longer
    resolves. -/
theorem C8_last_leave_destroys_witness :
    dictGet? demo_st1.user_party_map "alice" = some "AAAAAA" ∧
    dictGet? demo_st1.parties "AAAAAA" = some demo_party1 ∧
    demo_party1.members.map PartyMember.user_id = ["alice"] ∧
    get_party (leave_party demo_fails demo_o demo_st1 "alice").1 "AAAAAA" =
      none := by
  refine ⟨by decide, by decide, by decide, ?_⟩
  exact C8_last_leave_destroys demo_fails demo_o demo_st1 "alice" "AAAAAA"
    demo_party1 demo_reach1 (by decide) (by decide) (by decide)

/-- C9: even when the connection of some member fails, broadcast still delivers
    to every other non-excluded member whose own connection works; the
    failure is swallowed inside send_to_member, never propagated. -/
theorem C9_broadcast_isolation (fails : Nat → Bool) (party : Potluck)
    (msg : OutMsg) (exclude : Option String) (bad m : PartyMember)
    (_hbad : bad ∈ party.members) (_hfail : fails bad.ws = true)
    (hm : m ∈ party.members)
    (hx : excludeHit exclude m.user_id = false)
    (hok : fails m.ws = false) :
    { target_user := m.user_id, target_ws := m.ws, msg := msg,
      delivered := true } ∈ broadcast fails party msg exclude := by
  have hrec := mem_broadcast fails party msg exclude m hm hx
  rw [hok] at hrec
  simpa using hrec

/-- Witness for C9: the alice socket (id 7) is closed, yet bob still
    receives the broadcast. -/
theorem C9_broadcast_isolation_witness :
    demo_alice3 ∈ demo_party3.members ∧
    fails7 demo_alice3.ws = true ∧
    demo_bob3 ∈ demo_party3.members ∧
    excludeHit none demo_bob3.user_id = false ∧
    fails7 demo_bob3.ws = false ∧
    { target_user := demo_bob3.user_id, target_ws := demo_bob3.ws,
      msg := OutMsg.reaction "alice" "Alice" "👍", delivered := true } ∈
      broadcast fails7 demo_party3 (OutMsg.reaction "alice" "Alice" "👍")
        none := by
  refine ⟨by decide, by decide, by decide, by decide, by decide, ?_⟩
  exact C9_broadcast_isolation fails7 demo_party3
    (OutMsg.reaction "alice" "Alice" "👍") none demo_alice3 demo_bob3
    (by decide) (by decide) (by decide) (by decide) (by decide)

/-- C10: an inbound event whose type is none of the seven handled kinds
    leaves the registry unchanged and sends nothing, for every state and
    sender. -/
theorem C10_unknown_event_ignored (fails : Nat → Bool) (o : Oracle)
    (st : PotluckManager) (u : String) (msg : InMessage)
    (hty : msg.type ≠ some "chat" ∧ msg.type ≠ some "reaction" ∧
      msg.type ≠ some "ready" ∧ msg.type ≠ some "seek" ∧
      msg.type ≠ some "play" ∧ msg.type ≠ some "pause" ∧
      msg.type ≠ some "time_update") :
    handle_message fails o st u msg = (st, []) := by
  obtain ⟨n1, n2, n3, n4, n5, n6, n7⟩ := hty
  cases h1 : dictGet? st.user_party_map u with
  | none => simp [handle_message, h1]
  | some c =>
    cases h2 : dictGet? st.parties c with
    | none => simp [handle_message, h1, h2]
    | some p =>
      cases h3 : memGet? p.members u with
      | none => simp [handle_message, h1, h2, h3]
      | some m =>
        simp [handle_message, h1, h2, h3, n1, n2, n3, n4, n5, n6, n7]

/-- Witness for C10: a bogus event kind from bob is a complete no-op. -/
theorem C10_unknown_event_ignored_witness :
    ((⟨some "bogus", none, none, none, none⟩ : InMessage).type ≠
        some "chat" ∧
      (⟨some "bogus", none, none, none, none⟩ : InMessage).type ≠
        some "reaction" ∧
      (⟨some "bogus", none, none, none, none⟩ : InMessage).type ≠
        some "ready" ∧
      (⟨some "bogus", none, none, none, none⟩ : InMessage).type ≠
        some "seek" ∧
      (⟨some "bogus", none, none, none, none⟩ : InMessage).type ≠
        some "play" ∧
      (⟨some "bogus", none, none, none, none⟩ : InMessage).type ≠
        some "pause" ∧
      (⟨some "bogus", none, none, none, none⟩ : InMessage).type ≠
        some "time_update") ∧
    handle_message demo_fails demo_o demo_st2 "bob"
      ⟨some "bogus", none, none, none, none⟩ = (demo_st2, []) := by
  refine ⟨by decide, ?_⟩
  exact C10_unknown_event_ignored demo_fails demo_o demo_st2 "bob"
    ⟨some "bogus", none, none, none, none⟩ (by decide)
